import Mathlib

/-!
# A shallow embedding of the `rust-lox-impl` tree-walk Lox interpreter

This file translates the Rust sources of the repository into Lean 4
definitions and proves properties of them.

Modelling conventions:
* Rust `f64` literals are modelled as `ℚ`.  No claim in this development
  depends on IEEE-754 specific behaviour (rounding, NaN, signed zero);
  the only numeric facts used are equality with zero and equality of
  small integer literals, on which `ℚ` and `f64` agree.
* Rust `HashMap<String, LoxObject>` (`Scope` in `environment.rs`) is
  modelled as an association list with first-match lookup and
  replace-or-append insertion; `insert` returns the previous value, as
  `HashMap::insert` does.  Claims only observe `get`/`define`/
  `contains_key`, on which the two agree.
* `&mut` state is modelled by explicit state passing: a Rust method
  `fn m(&mut self, ...) -> T` becomes a Lean function returning the
  updated state together with `T`.
* The error sink (`ErrorReporter` in `error/error_reporter.rs`, whose
  `error` method prints the error with `eprintln!` and sets `had_error`)
  is modelled as the `had_error` flag plus a log of the printed strings.
* The interpreter and parser are recursive through runtime data (function
  bodies, token streams), so they take an explicit fuel argument; `none`
  means the fuel was exhausted.  All concrete runs in this file use ample
  fuel.
* `std::time::SystemTime` (built-in `clock`) is external input; its value
  is modelled as `0`.  No claim observes it.
-/

/-- `TokenType` from `src/lib/token.rs` (the copy in `scanner.rs` is
identical).  `String` and `Number` carry their decoded literal. -/
inductive TokenType where
  | LeftParen
  | RightParen
  | LeftBrace
  | RightBrace
  | Comma
  | Dot
  | Minus
  | Plus
  | SemiColon
  | Slash
  | Star
  | Bang
  | BangEqual
  | Equal
  | EqualEqual
  | GreaterEqual
  | Greater
  | Less
  | LessEqual
  | Identifier
  | String (s : String)
  | Number (n : ℚ)
  | And
  | Class
  | Else
  | False
  | Fun
  | For
  | If
  | Nil
  | Or
  | Print
  | Return
  | Super
  | This
  | True
  | Var
  | While
  | Eof
deriving DecidableEq, Repr

/-- `Token` from `src/lib/token.rs`: a token type, the raw source
substring, and a 1-based line. -/
structure Token where
  token_type : TokenType
  lexeme : String
  line : Nat
deriving DecidableEq, Repr

/-- `Expr` from `src/lib/grammar.rs`.  The Rust enum wraps one struct per
variant (`BinaryExpr`, `GroupingExpr`, ...); here each variant carries the
fields of its struct directly.  `Logical` reuses `BinaryExpr` in Rust and
so carries the same fields as `Binary`. -/
inductive Expr where
  | Binary (lhs : Expr) (operator : Token) (rhs : Expr)
  | Grouping (expr : Expr)
  | Literal (token : Token)
  | Unary (operator : Token) (rhs : Expr)
  | Variable (name : Token)
  | Assignment («variable» : Token) (expr : Expr)
  | Logical (lhs : Expr) (operator : Token) (rhs : Expr)
  | Call (callee : Expr) (closing_paren : Token) (args : List Expr)
deriving Repr

/-- `Stmt` from `src/lib/grammar.rs`.  As with `Expr`, each variant
carries the fields of its Rust struct (`WhileStmt`, `BlockStmt`, ...).
`grammar.rs` has no `Print` variant. -/
inductive Stmt where
  | VariableDeclaration (name : Token) (initializer : Option Expr)
  | Expression (expr : Expr)
  | While (condition : Expr) (body : Stmt)
  | FunctionDeclaration (name : Token) (params : List Token) (body : List Stmt)
  | Block (body : List Stmt)
  | If (condition : Expr) (then_branch : Stmt) (else_branch : Option Stmt)
  | Return (return_keyword : Token) (value : Option Expr)
deriving Repr

mutual

/-- `LoxObject` from `src/lib/object.rs`, extended with the `Clock` and
`PrintEnv` variants that `environment.rs` (`LoxObject::Clock(Clock {})`,
`LoxObject::PrintEnv(PrintEnv {})`) and `interpreter.rs` pattern-match on;
`Function` carries a `LoxFunction` as used by
`Interpreter::function_declaration_statement`. -/
inductive LoxObject where
  | String (s : String)
  | Number (n : ℚ)
  | Boolean (b : Bool)
  | Nil
  | Function (f : LoxFunction)
  | Clock
  | PrintEnv

/-- `LoxFunction` from `src/lib/function.rs`: the declaration's name
token, parameter tokens, parsed body, and the `state` scope ("a place for
the function to store private state between calls").  `LoxFunction::from`
initialises `state` to `Scope::new()` and no code ever writes to or reads
from it. -/
inductive LoxFunction where
  | mk (name : Token) (params : List Token) (body : List Stmt)
      (state : List (String × LoxObject))

end

/-- Field accessor for `LoxFunction.name`. -/
def LoxFunction.name : LoxFunction → Token
  | .mk n _ _ _ => n

/-- Field accessor for `LoxFunction.params`. -/
def LoxFunction.params : LoxFunction → List Token
  | .mk _ p _ _ => p

/-- Field accessor for `LoxFunction.body`. -/
def LoxFunction.body : LoxFunction → List Stmt
  | .mk _ _ b _ => b

/-- `Scope` from `src/lib/environment.rs`: a `HashMap<String, LoxObject>`,
modelled as an association list. -/
abbrev Scope := List (String × LoxObject)

/-- `Scope::new`. -/
def Scope.new : Scope := []

/-- `HashMap::get` (used by `Scope::get` and via `contains_key`):
first-match lookup. -/
def Scope.get (s : Scope) (name : String) : Option LoxObject :=
  match s with
  | [] => none
  | (k, v) :: rest => if k = name then some v else Scope.get rest name

/-- `HashMap::contains_key` as used by `MultiScope::assign` and
`Environment::try_get_local`. -/
def Scope.contains_key (s : Scope) (name : String) : Bool :=
  match s with
  | [] => false
  | (k, _) :: rest => if k = name then true else Scope.contains_key rest name

/-- `Scope::define` from `src/lib/environment.rs`: `HashMap::insert` —
sets the value for the variable and returns the old object if it was
previously defined. -/
def Scope.define (s : Scope) (name : String) (value : LoxObject) :
    Scope × Option LoxObject :=
  match s with
  | [] => ([(name, value)], none)
  | (k, v) :: rest =>
      if k = name then ((k, value) :: rest, some v)
      else
        let (rest', old) := Scope.define rest name value
        ((k, v) :: rest', old)

/-- `MultiScope` from `src/lib/environment.rs`: a `LinkedList<Scope>`.
The list is kept in Rust order — front first, the innermost scope last
(`push_back` adds the innermost layer, `iter().rev()` iterates innermost
first). -/
structure MultiScope where
  scopes : List Scope

/-- `MultiScope::new`: one layer. -/
def MultiScope.new : MultiScope := ⟨[Scope.new]⟩

/-- `MultiScope::push_as_innermost_scope`: `push_back`. -/
def MultiScope.push_as_innermost_scope (ms : MultiScope) (s : Scope) :
    MultiScope :=
  ⟨ms.scopes ++ [s]⟩

/-- `MultiScope::pop_innermost_scope`: pops the back layer, except that a
single remaining layer is never popped (`None` is returned instead). -/
def MultiScope.pop_innermost_scope (ms : MultiScope) :
    MultiScope × Option Scope :=
  if ms.scopes.length = 1 then (ms, none)
  else (⟨ms.scopes.dropLast⟩, ms.scopes.getLast?)

/-- `MultiScope::consume_final_layer`: `pop_front`, on a `MultiScope`
known to have exactly one remaining layer. -/
def MultiScope.consume_final_layer (ms : MultiScope) : Scope :=
  ms.scopes.headD Scope.new

/-- `MultiScope::define`: define in the innermost (last) scope. -/
def MultiScope.define (ms : MultiScope) (name : String) (value : LoxObject) :
    MultiScope :=
  match h : ms.scopes with
  | [] => ms
  | _ :: _ =>
      ⟨ms.scopes.dropLast ++ [(Scope.define (ms.scopes.getLast (by simp [h])) name value).1]⟩

/-- Helper for `MultiScope.assign`: walks the scopes innermost-first
(i.e. the reversed list), overwrites in the first scope that contains the
name, and stops there (`break` in the Rust loop). -/
def MultiScope.assignRev (scopes : List Scope) (name : String)
    (value : LoxObject) : List Scope × Option LoxObject :=
  match scopes with
  | [] => ([], none)
  | s :: rest =>
      if s.contains_key name then
        let (s', old) := s.define name value
        (s' :: rest, old)
      else
        let (rest', old) := MultiScope.assignRev rest name value
        (s :: rest', old)

/-- `MultiScope::assign` from `src/lib/environment.rs`: assign to the
variable in the closest scope; returns `some old` on success, `none` if
the variable is defined in no scope. -/
def MultiScope.assign (ms : MultiScope) (name : String) (value : LoxObject) :
    MultiScope × Option LoxObject :=
  let (rev', old) := MultiScope.assignRev ms.scopes.reverse name value
  (⟨rev'.reverse⟩, old)

/-- Helper for `MultiScope.get`: first hit walking a list of scopes. -/
def MultiScope.getRev (scopes : List Scope) (name : String) :
    Option LoxObject :=
  match scopes with
  | [] => none
  | s :: rest =>
      match s.get name with
      | some obj => some obj
      | none => MultiScope.getRev rest name

/-- `MultiScope::get`: the value from the closest (innermost-first) scope
containing the name. -/
def MultiScope.get (ms : MultiScope) (name : String) : Option LoxObject :=
  MultiScope.getRev ms.scopes.reverse name

/-- `RuntimeError` from `src/lib/error/runtime_error.rs` — the single
variant `WithMsg(RuntimeErrorCtx { token }, msg)`. -/
structure RuntimeError where
  token : Token
  msg : String
deriving Repr

/-- `RuntimeError::new`. -/
def RuntimeError.new (token : Token) (msg : String) : RuntimeError :=
  ⟨token, msg⟩

/-- `Display` for `RuntimeError`: `"{ctx}: {msg}"` where the context
displays as `[Line n] Error at 'lexeme'`. -/
def RuntimeError.display (e : RuntimeError) : String :=
  "[Line " ++ toString e.token.line ++ "] Error at '" ++ e.token.lexeme
    ++ "': " ++ e.msg

/-- `RuntimeResult<T>` from `src/lib/interpreter.rs`. -/
abbrev RuntimeResult (α : Type) := Except RuntimeError α

/-- `Environment` from `src/lib/environment.rs`: optional local scopes
plus the distinguished global scope. -/
structure Environment where
  «local» : Option MultiScope
  global : Scope

/-- `Environment::new`: a global scope with the builtin functions
`clock` and `print_env` defined. -/
def Environment.new : Environment :=
  let global := Scope.new
  let global := (global.define "clock" LoxObject.Clock).1
  let global := (global.define "print_env" LoxObject.PrintEnv).1
  { «local» := none, global := global }

/-- `Environment::add_scope_layer`. -/
def Environment.add_scope_layer (env : Environment) : Environment :=
  match env.«local» with
  | some ls => { env with «local» := some (ls.push_as_innermost_scope Scope.new) }
  | none => { env with «local» := some MultiScope.new }

/-- `Environment::pop_scope_layer`. -/
def Environment.pop_scope_layer (env : Environment) :
    Environment × Option Scope :=
  match env.«local» with
  | some ls =>
      match ls.pop_innermost_scope with
      | (ls', some s) => ({ env with «local» := some ls' }, some s)
      | (_, none) =>
          ({ env with «local» := none }, some ls.consume_final_layer)
  | none => (env, none)

/-- `Environment::in_new_local_scope`: run `f` inside an extra scope
layer; the layer is popped afterwards (the popped scope is discarded). -/
def Environment.in_new_local_scope {α : Type}
    (env : Environment) (f : Environment → Environment × α) :
    Environment × α :=
  let env := env.add_scope_layer
  let (env, res) := f env
  ((env.pop_scope_layer).1, res)

/-- `Environment::define`: define in the most local scope, or in the
global scope if no local scope exists. -/
def Environment.define (env : Environment) (name : String)
    (value : LoxObject) : Environment :=
  match env.«local» with
  | some ls => { env with «local» := some (ls.define name value) }
  | none => { env with global := (env.global.define name value).1 }

/-- `Environment::assign` from `src/lib/environment.rs` (lines 219-247):
try the local scopes first; if that fails, call `Scope::define` on the
global scope (which inserts the binding) and treat the assignment as
successful only when `define` returned a previous value; otherwise report
an undefined-variable runtime error. -/
def Environment.assign (env : Environment) (name : Token)
    (value : LoxObject) : Environment × RuntimeResult Unit :=
  let (env, successfully_assigned) :=
    match env.«local» with
    | some ls =>
        let (ls', old) := ls.assign name.lexeme value
        ({ env with «local» := some ls' }, old.isSome)
    | none => (env, false)
  let (env, successfully_assigned) :=
    if !successfully_assigned then
      let (g', old) := env.global.define name.lexeme value
      ({ env with global := g' }, old.isSome)
    else (env, successfully_assigned)
  if !successfully_assigned then
    (env, .error ⟨name, "Undefined variable " ++ name.lexeme⟩)
  else
    (env, .ok ())

/-- `Environment::get` from `src/lib/environment.rs` (lines 266-278):
local scopes first, then the global scope, else an undefined-variable
error. -/
def Environment.get (env : Environment) (name : Token) :
    RuntimeResult LoxObject :=
  match (env.«local».map fun ls => ls.get name.lexeme).join.or
      (env.global.get name.lexeme) with
  | some obj => .ok obj
  | none => .error ⟨name, "Undefined variable " ++ name.lexeme⟩

/-- `LoxObject::is_truthy` from `src/lib/object.rs` (lines 31-48):
booleans are their own value, `Nil` is false, zero is false, everything
else is true. -/
def LoxObject.is_truthy : LoxObject → Bool
  | .Boolean b => b
  | .Nil => false
  | .Number n => n ≠ 0
  | _ => true

/-- `PartialEq for LoxObject` from `src/lib/object.rs` (lines 14-29):
`Nil == Nil`, primitives structurally, functions never equal, everything
else (including the mixed cases) false. -/
def LoxObject.loxEq : LoxObject → LoxObject → Bool
  | .Nil, .Nil => true
  | .String l, .String r => l = r
  | .Number l, .Number r => l = r
  | .Boolean l, .Boolean r => l = r
  | .Function _, .Function _ => false
  | _, _ => false

/-- `ErrorReporter` from `src/lib/error/error_reporter.rs`.  `had_error`
is the Rust field; `log` models the lines printed to stderr by
`eprintln!` in `ErrorReporter::error`. -/
structure ErrorReporter where
  had_error : Bool
  log : List String

/-- `ErrorReporter::new`. -/
def ErrorReporter.new : ErrorReporter := ⟨false, []⟩

/-- `ErrorReporter::error`: print the error's display form and record
that an error occurred. -/
def ErrorReporter.error (r : ErrorReporter) (displayed : String) :
    ErrorReporter :=
  ⟨true, r.log ++ [displayed]⟩

/-- `Interpreter` from `src/lib/interpreter.rs`. -/
structure Interpreter where
  error_reporter : ErrorReporter

/-- `Interpreter::new`. -/
def Interpreter.new : Interpreter := ⟨ErrorReporter.new⟩

/-- `self.error_reporter.error(e)` for a runtime error `e` (the generic
`error<T: Display>` method receives the error and prints its display
form). -/
def Interpreter.report (i : Interpreter) (e : RuntimeError) : Interpreter :=
  ⟨i.error_reporter.error e.display⟩

/-- `LoxFunction::arity` from `src/lib/function.rs`. -/
def LoxFunction.arity (f : LoxFunction) : Nat := f.params.length

/-- `Clock::arity` from `src/lib/callable.rs`. -/
def Clock.arity : Nat := 0

/-- The value returned by `Clock::call`: the system time in seconds.
The system clock is external input; it is modelled as `0`.  No claim
observes this value. -/
def Clock.call_result : LoxObject := .Number 0

/-- `PrintEnv::arity` from `src/lib/callable.rs`. -/
def PrintEnv.arity : Nat := 0

/-- `Interpreter::evaluate_literal`: map a literal-bearing token to a
`LoxObject`. -/
def evaluate_literal (token : Token) : RuntimeResult LoxObject :=
  match token.token_type with
  | .String s => .ok (.String s)
  | .Number n => .ok (.Number n)
  | .True => .ok (.Boolean true)
  | .False => .ok (.Boolean false)
  | .Nil => .ok .Nil
  | _ =>
      .error (RuntimeError.new token
        ("Tried to evaluate token '" ++ token.lexeme ++ "' as literal"))

/-- `Interpreter::function_declaration_statement` from
`src/lib/interpreter.rs` (lines 109-117): build a `LoxFunction` via
`LoxFunction::from` (which sets `state := Scope::new()`) and `define` it
under the function's name. -/
def function_declaration_statement (env : Environment) (name : Token)
    (params : List Token) (body : List Stmt) : Environment :=
  env.define name.lexeme (.Function (.mk name params body Scope.new))

/-- The parameter-binding loop at the top of `LoxFunction::call`:
`e.define(&param.lexeme, args[i].clone())` for each parameter.  The
caller's arity check guarantees `params` and `args` have equal length. -/
def define_params (params : List Token) (args : List LoxObject)
    (env : Environment) : Environment :=
  (params.zip args).foldl (fun e pa => e.define pa.1.lexeme pa.2) env

/-- The operator dispatch of `Interpreter::evaluate_binary`, applied to
the two evaluated operands. -/
def evaluate_binary_op (operator : Token) (left right : LoxObject) :
    RuntimeResult LoxObject :=
  match operator.token_type with
  | .Minus =>
      match left, right with
      | .Number l, .Number r => .ok (.Number (l - r))
      | _, _ => .error (RuntimeError.new operator "Can only subtract number types")
  | .Plus =>
      match left, right with
      | .Number l, .Number r => .ok (.Number (l + r))
      | .String l, .String r => .ok (.String (l ++ r))
      | _, _ =>
          .error (RuntimeError.new operator
            "Can only add number + number or concatenate string + string")
  | .Star =>
      match left, right with
      | .Number l, .Number r => .ok (.Number (l * r))
      | _, _ => .error (RuntimeError.new operator "Can only multiply number types")
  | .Slash =>
      match left, right with
      | .Number l, .Number r => .ok (.Number (l / r))
      | _, _ => .error (RuntimeError.new operator "Can only divide number types")
  | .Greater =>
      match left, right with
      | .Number l, .Number r => .ok (.Boolean (decide (l > r)))
      | _, _ =>
          .error (RuntimeError.new operator "Can only compare number types with >")
  | .GreaterEqual =>
      match left, right with
      | .Number l, .Number r => .ok (.Boolean (decide (l ≥ r)))
      | _, _ =>
          .error (RuntimeError.new operator "Can only compare number types with >=")
  | .Less =>
      match left, right with
      | .Number l, .Number r => .ok (.Boolean (decide (l < r)))
      | _, _ =>
          .error (RuntimeError.new operator "Can only compare number types with <")
  | .LessEqual =>
      match left, right with
      | .Number l, .Number r => .ok (.Boolean (decide (l ≤ r)))
      | _, _ =>
          .error (RuntimeError.new operator "Can only compare number types with <=")
  | .EqualEqual => .ok (.Boolean (left.loxEq right))
  | .BangEqual => .ok (.Boolean (!left.loxEq right))
  | _ =>
      .error (RuntimeError.new operator
        ("Cannot use token " ++ operator.lexeme ++ " for binary operation"))

mutual

/-- `Interpreter::execute` from `src/lib/interpreter.rs` (lines 43-91):
execute one statement, reporting runtime errors to the error reporter and
returning the optional early-return value.  (The `Stmt::Print` branch of
the Rust match has no counterpart because `grammar.rs` defines no `Print`
statement.) -/
def execute (fuel : Nat) (stmt : Stmt) (i : Interpreter)
    (env : Environment) :
    Option (Interpreter × Environment × Option LoxObject) :=
  match fuel with
  | 0 => none
  | fuel + 1 =>
    match stmt with
    | .Expression expr =>
        match expression_statement fuel expr i env with
        | none => none
        | some (i, env, .error e) => some (i.report e, env, none)
        | some (i, env, .ok _) => some (i, env, none)
    | .VariableDeclaration name initializer =>
        match variable_statement fuel name initializer i env with
        | none => none
        | some (i, env, .error e) => some (i.report e, env, none)
        | some (i, env, .ok _) => some (i, env, none)
    | .Block body =>
        match execute_block fuel body i env with
        | none => none
        | some (env, ret) => some (i, env, ret)
    | .If condition then_branch else_branch =>
        match if_statement fuel condition then_branch else_branch i env with
        | none => none
        | some (i, env, .error e) => some (i.report e, env, none)
        | some (i, env, .ok val) => some (i, env, val)
    | .FunctionDeclaration name params body =>
        some (i, function_declaration_statement env name params body, none)
    | .Return _ value =>
        match return_statement fuel value i env with
        | none => none
        | some (i, env, .error e) => some (i.report e, env, none)
        | some (i, env, .ok val) => some (i, env, val)
    | .While condition body =>
        match while_statement fuel condition body i env with
        | none => none
        | some (i, env, .error e) => some (i.report e, env, none)
        | some (i, env, .ok val) => some (i, env, val)

/-- `Interpreter::while_statement`: re-evaluate the condition each
iteration; an early return from the body is propagated. -/
def while_statement (fuel : Nat) (condition : Expr) (body : Stmt)
    (i : Interpreter) (env : Environment) :
    Option (Interpreter × Environment × RuntimeResult (Option LoxObject)) :=
  match fuel with
  | 0 => none
  | fuel + 1 =>
    match evaluate fuel condition i env with
    | none => none
    | some (i, env, .error e) => some (i, env, .error e)
    | some (i, env, .ok cond) =>
        if cond.is_truthy then
          match execute fuel body i env with
          | none => none
          | some (i, env, some res) => some (i, env, .ok (some res))
          | some (i, env, none) => while_statement fuel condition body i env
        else some (i, env, .ok none)

/-- `Interpreter::return_statement`:
`value.map(|expr| self.evaluate(expr, exec_env)).transpose()`. -/
def return_statement (fuel : Nat) (value : Option Expr) (i : Interpreter)
    (env : Environment) :
    Option (Interpreter × Environment × RuntimeResult (Option LoxObject)) :=
  match fuel with
  | 0 => none
  | fuel + 1 =>
    match value with
    | none => some (i, env, .ok none)
    | some expr =>
        match evaluate fuel expr i env with
        | none => none
        | some (i, env, .error e) => some (i, env, .error e)
        | some (i, env, .ok v) => some (i, env, .ok (some v))

/-- `Interpreter::if_statement`. -/
def if_statement (fuel : Nat) (condition : Expr) (then_branch : Stmt)
    (else_branch : Option Stmt) (i : Interpreter) (env : Environment) :
    Option (Interpreter × Environment × RuntimeResult (Option LoxObject)) :=
  match fuel with
  | 0 => none
  | fuel + 1 =>
    match evaluate fuel condition i env with
    | none => none
    | some (i, env, .error e) => some (i, env, .error e)
    | some (i, env, .ok cond) =>
        if cond.is_truthy then
          match execute fuel then_branch i env with
          | none => none
          | some (i, env, val) => some (i, env, .ok val)
        else
          match else_branch with
          | some stmt =>
              match execute fuel stmt i env with
              | none => none
              | some (i, env, val) => some (i, env, .ok val)
          | none => some (i, env, .ok none)

/-- `Interpreter::execute_block` from `src/lib/interpreter.rs` (lines
138-153): the body runs against a *clone* of the interpreter inside a
fresh scope layer; the clone (with any error-reporter updates) is
discarded when the block finishes, so the caller's interpreter is
returned unchanged by `execute`'s `Block` branch. -/
def execute_block (fuel : Nat) (body : List Stmt) (i : Interpreter)
    (env : Environment) : Option (Environment × Option LoxObject) :=
  match fuel with
  | 0 => none
  | fuel + 1 =>
    let cloned_interpreter := i
    let env := env.add_scope_layer
    match execute_seq fuel body cloned_interpreter env with
    | none => none
    | some (_, env, ret) => some ((env.pop_scope_layer).1, ret)

/-- The statement loop shared by `Interpreter::execute_block` and
`LoxFunction::call`: execute statements in order, stopping early when one
produces a return value. -/
def execute_seq (fuel : Nat) (stmts : List Stmt) (i : Interpreter)
    (env : Environment) :
    Option (Interpreter × Environment × Option LoxObject) :=
  match fuel with
  | 0 => none
  | fuel + 1 =>
    match stmts with
    | [] => some (i, env, none)
    | stmt :: rest =>
        match execute fuel stmt i env with
        | none => none
        | some (i, env, some v) => some (i, env, some v)
        | some (i, env, none) => execute_seq fuel rest i env

/-- `Interpreter::expression_statement`: evaluate and discard. -/
def expression_statement (fuel : Nat) (expr : Expr) (i : Interpreter)
    (env : Environment) :
    Option (Interpreter × Environment × RuntimeResult Unit) :=
  match fuel with
  | 0 => none
  | fuel + 1 =>
    match evaluate fuel expr i env with
    | none => none
    | some (i, env, .error e) => some (i, env, .error e)
    | some (i, env, .ok _) => some (i, env, .ok ())

/-- `Interpreter::variable_statement`: evaluate the initializer (default
`Nil`) and `define` in the current scope. -/
def variable_statement (fuel : Nat) (name : Token)
    (initializer : Option Expr) (i : Interpreter) (env : Environment) :
    Option (Interpreter × Environment × RuntimeResult Unit) :=
  match fuel with
  | 0 => none
  | fuel + 1 =>
    match initializer with
    | none => some (i, env.define name.lexeme .Nil, .ok ())
    | some expr =>
        match evaluate fuel expr i env with
        | none => none
        | some (i, env, .error e) => some (i, env, .error e)
        | some (i, env, .ok v) => some (i, env.define name.lexeme v, .ok ())

/-- `Interpreter::evaluate` from `src/lib/interpreter.rs` (lines
187-203). -/
def evaluate (fuel : Nat) (expr : Expr) (i : Interpreter)
    (env : Environment) :
    Option (Interpreter × Environment × RuntimeResult LoxObject) :=
  match fuel with
  | 0 => none
  | fuel + 1 =>
    match expr with
    | .Binary lhs op rhs => evaluate_binary fuel lhs op rhs i env
    | .Grouping e => evaluate fuel e i env
    | .Literal token => some (i, env, evaluate_literal token)
    | .Unary op rhs => evaluate_unary fuel op rhs i env
    | .Variable name => some (i, env, env.get name)
    | .Assignment v e => evaluate_assignment fuel v e i env
    | .Logical lhs op rhs => evaluate_logical_expression fuel lhs op rhs i env
    | .Call callee cp args => evaluate_call_expr fuel callee cp args i env

/-- `Interpreter::evaluate_assignment`: evaluate the right-hand side,
assign it, and give the value as the expression's result. -/
def evaluate_assignment (fuel : Nat) (v : Token) (expr : Expr)
    (i : Interpreter) (env : Environment) :
    Option (Interpreter × Environment × RuntimeResult LoxObject) :=
  match fuel with
  | 0 => none
  | fuel + 1 =>
    match evaluate fuel expr i env with
    | none => none
    | some (i, env, .error e) => some (i, env, .error e)
    | some (i, env, .ok value) =>
        match env.assign v value with
        | (env, .error e) => some (i, env, .error e)
        | (env, .ok _) => some (i, env, .ok value)

/-- `Interpreter::evaluate_call_expr` from `src/lib/interpreter.rs`
(lines 215-265): evaluate the callee, then every argument; check the
arity against `args.len()`; dispatch to the callable or fail with
`"Can only call functions and classes."`. -/
def evaluate_call_expr (fuel : Nat) (callee : Expr) (closing_paren : Token)
    (args : List Expr) (i : Interpreter) (env : Environment) :
    Option (Interpreter × Environment × RuntimeResult LoxObject) :=
  match fuel with
  | 0 => none
  | fuel + 1 =>
    match evaluate fuel callee i env with
    | none => none
    | some (i, env, .error e) => some (i, env, .error e)
    | some (i, env, .ok calleeObj) =>
        match evaluate_args fuel args i env with
        | none => none
        | some (i, env, .error e) => some (i, env, .error e)
        | some (i, env, .ok args_evaluated) =>
            match calleeObj with
            | .Function f =>
                if args.length ≠ f.arity then
                  some (i, env, .error (RuntimeError.new closing_paren
                    ("Expect " ++ toString f.arity ++ " arguments but got "
                      ++ toString args.length)))
                else
                  match LoxFunction.call fuel f i env args_evaluated with
                  | none => none
                  | some (i, env, v) => some (i, env, .ok v)
            | .Clock =>
                if args.length ≠ Clock.arity then
                  some (i, env, .error (RuntimeError.new closing_paren
                    ("Expect " ++ toString Clock.arity ++ " arguments but got "
                      ++ toString args.length)))
                else some (i, env, .ok Clock.call_result)
            | .PrintEnv =>
                if args.length ≠ PrintEnv.arity then
                  some (i, env, .error (RuntimeError.new closing_paren
                    ("Expect " ++ toString PrintEnv.arity
                      ++ " arguments but got " ++ toString args.length)))
                else some (i, env, .ok .Nil)
            | _ =>
                some (i, env, .error (RuntimeError.new closing_paren
                  "Can only call functions and classes."))

/-- The argument-evaluation loop of `evaluate_call_expr`: left to right,
aborting on the first error. -/
def evaluate_args (fuel : Nat) (args : List Expr) (i : Interpreter)
    (env : Environment) :
    Option (Interpreter × Environment × RuntimeResult (List LoxObject)) :=
  match fuel with
  | 0 => none
  | fuel + 1 =>
    match args with
    | [] => some (i, env, .ok [])
    | a :: rest =>
        match evaluate fuel a i env with
        | none => none
        | some (i, env, .error e) => some (i, env, .error e)
        | some (i, env, .ok v) =>
            match evaluate_args fuel rest i env with
            | none => none
            | some (i, env, .error e) => some (i, env, .error e)
            | some (i, env, .ok vs) => some (i, env, .ok (v :: vs))

/-- `Interpreter::evaluate_logical_expression` from
`src/lib/interpreter.rs` (lines 267-280), including its condition
`(operator == Or && lhs truthy) || !(lhs truthy)` verbatim: when it
holds the left value is returned, otherwise the right operand is
evaluated. -/
def evaluate_logical_expression (fuel : Nat) (lhs : Expr) (operator : Token)
    (rhs : Expr) (i : Interpreter) (env : Environment) :
    Option (Interpreter × Environment × RuntimeResult LoxObject) :=
  match fuel with
  | 0 => none
  | fuel + 1 =>
    match evaluate fuel lhs i env with
    | none => none
    | some (i, env, .error e) => some (i, env, .error e)
    | some (i, env, .ok left) =>
        if (operator.token_type == TokenType.Or && left.is_truthy)
            || !left.is_truthy then
          some (i, env, .ok left)
        else
          evaluate fuel rhs i env

/-- `Interpreter::evaluate_unary`. -/
def evaluate_unary (fuel : Nat) (operator : Token) (rhs : Expr)
    (i : Interpreter) (env : Environment) :
    Option (Interpreter × Environment × RuntimeResult LoxObject) :=
  match fuel with
  | 0 => none
  | fuel + 1 =>
    match evaluate fuel rhs i env with
    | none => none
    | some (i, env, .error e) => some (i, env, .error e)
    | some (i, env, .ok right) =>
        match operator.token_type with
        | .Bang => some (i, env, .ok (.Boolean (!right.is_truthy)))
        | .Minus =>
            match right with
            | .Number n => some (i, env, .ok (.Number (-n)))
            | _ =>
                some (i, env, .error (RuntimeError.new operator
                  "Unary '-' can only be applied to numbers."))
        | _ =>
            some (i, env, .error (RuntimeError.new operator
              ("token '" ++ operator.lexeme ++ "' cannot be used as unary")))

/-- `Interpreter::evaluate_binary` from `src/lib/interpreter.rs` (lines
319-424): evaluate both sides left to right and apply the operator. -/
def evaluate_binary (fuel : Nat) (lhs : Expr) (operator : Token)
    (rhs : Expr) (i : Interpreter) (env : Environment) :
    Option (Interpreter × Environment × RuntimeResult LoxObject) :=
  match fuel with
  | 0 => none
  | fuel + 1 =>
    match evaluate fuel lhs i env with
    | none => none
    | some (i, env, .error e) => some (i, env, .error e)
    | some (i, env, .ok left) =>
        match evaluate fuel rhs i env with
        | none => none
        | some (i, env, .error e) => some (i, env, .error e)
        | some (i, env, .ok right) =>
            some (i, env, evaluate_binary_op operator left right)

/-- `LoxFunction::call` from `src/lib/function.rs` (lines 40-76): in a
new scope, bind the parameters to the argument values, execute the body
statements breaking early on a return value, and give back the result
(default `Nil`).  Note that no captured environment is involved: the body
runs against the call-site environment `env`. -/
def LoxFunction.call (fuel : Nat) (f : LoxFunction) (i : Interpreter)
    (env : Environment) (args : List LoxObject) :
    Option (Interpreter × Environment × LoxObject) :=
  match fuel with
  | 0 => none
  | fuel + 1 =>
    let env := env.add_scope_layer
    let env := define_params f.params args env
    match execute_seq fuel f.body i env with
    | none => none
    | some (i, env, ret) =>
        some (i, (env.pop_scope_layer).1, ret.getD .Nil)

end

/-- The statement loop of `Interpreter::interpret`: execute each
statement in turn, ignoring early-return values. -/
def interpret_loop (fuel : Nat) (stmts : List Stmt) (i : Interpreter)
    (env : Environment) : Option (Interpreter × Environment) :=
  match stmts with
  | [] => some (i, env)
  | stmt :: rest =>
      match execute fuel stmt i env with
      | none => none
      | some (i, env, _) => interpret_loop fuel rest i env

/-- `Interpreter::interpret` from `src/lib/interpreter.rs` (lines 32-38):
execute the statement list in a fresh environment.  The Rust method
returns `()`; the final interpreter and environment states are returned
here so that the execution can be observed. -/
def interpret (fuel : Nat) (stmts : List Stmt) (i : Interpreter) :
    Option (Interpreter × Environment) :=
  interpret_loop fuel stmts i Environment.new

/-! ## Derived views of the environment, used to state properties -/

/-- The scope chain of an environment, innermost scope first, ending with
the global scope.  This is the resolution order used by
`Environment::get` / `Environment::assign` (local scopes innermost-out,
then the global scope). -/
def Environment.chain (env : Environment) : List Scope :=
  (match env.«local» with
   | some ms => ms.scopes.reverse
   | none => []) ++ [env.global]

/-- Whether any scope of the environment binds `name`. -/
def Environment.binds (env : Environment) (name : String) : Bool :=
  env.chain.any (fun s => s.contains_key name)

/-- Overwriting the binding in the nearest scope of a chain that contains
the name: the first containing scope (in chain order) is updated with
`Scope.define`, all other scopes are left untouched. -/
def overwrite_nearest (scopes : List Scope) (name : String)
    (value : LoxObject) : List Scope :=
  match scopes with
  | [] => []
  | s :: rest =>
      if s.contains_key name then (s.define name value).1 :: rest
      else s :: overwrite_nearest rest name value

/-! ## Scope and chain lemmas -/

theorem Scope.get_isSome (s : Scope) (n : String) :
    (s.get n).isSome = s.contains_key n := by
  induction s with
  | nil => rfl
  | cons kv rest ih =>
      obtain ⟨k, v⟩ := kv
      by_cases h : k = n <;> simp [Scope.get, Scope.contains_key, h, ih]

theorem Scope.define_snd (s : Scope) (n : String) (v : LoxObject) :
    (s.define n v).2 = s.get n := by
  induction s with
  | nil => rfl
  | cons kv rest ih =>
      obtain ⟨k, w⟩ := kv
      by_cases h : k = n <;> simp [Scope.get, Scope.define, h, ih]

theorem Scope.get_define_self (s : Scope) (n : String) (v : LoxObject) :
    (s.define n v).1.get n = some v := by
  induction s with
  | nil => simp [Scope.get, Scope.define]
  | cons kv rest ih =>
      obtain ⟨k, w⟩ := kv
      by_cases h : k = n <;> simp [Scope.get, Scope.define, h, ih]

theorem MultiScope.assignRev_fst (scopes : List Scope) (n : String)
    (v : LoxObject) :
    (MultiScope.assignRev scopes n v).1 = overwrite_nearest scopes n v := by
  induction scopes with
  | nil => rfl
  | cons s rest ih =>
      by_cases h : s.contains_key n = true <;>
        simp [MultiScope.assignRev, overwrite_nearest, h, ih]

theorem MultiScope.assignRev_snd (scopes : List Scope) (n : String)
    (v : LoxObject) :
    (MultiScope.assignRev scopes n v).2 = MultiScope.getRev scopes n := by
  induction scopes with
  | nil => rfl
  | cons s rest ih =>
      by_cases h : s.contains_key n = true
      · have hg : (s.get n).isSome = true := by rw [Scope.get_isSome, h]
        obtain ⟨v', hv⟩ := Option.isSome_iff_exists.mp hg
        simp [MultiScope.assignRev, MultiScope.getRev, h, Scope.define_snd, hv]
      · have hg : s.get n = none := by
          have := Scope.get_isSome s n
          simp [h] at this
          exact Option.not_isSome_iff_eq_none.mp (by simp [this])
        simp [MultiScope.assignRev, MultiScope.getRev, h, hg, ih]

theorem MultiScope.getRev_isSome (scopes : List Scope) (n : String) :
    (MultiScope.getRev scopes n).isSome
      = scopes.any (fun s => s.contains_key n) := by
  induction scopes with
  | nil => rfl
  | cons s rest ih =>
      by_cases h : s.contains_key n = true
      · have hg : (s.get n).isSome = true := by rw [Scope.get_isSome, h]
        obtain ⟨v', hv⟩ := Option.isSome_iff_exists.mp hg
        simp [MultiScope.getRev, h, hv]
      · have hg : s.get n = none := by
          have := Scope.get_isSome s n
          simp [h] at this
          exact Option.not_isSome_iff_eq_none.mp (by simp [this])
        simp [MultiScope.getRev, h, hg, ih]

theorem overwrite_nearest_of_none (scopes : List Scope) (n : String)
    (v : LoxObject) (h : scopes.any (fun s => s.contains_key n) = false) :
    overwrite_nearest scopes n v = scopes := by
  induction scopes with
  | nil => rfl
  | cons s rest ih =>
      simp only [List.any_cons, Bool.or_eq_false_iff] at h
      simp [overwrite_nearest, h.1, ih h.2]

theorem overwrite_nearest_append_of_any (l₁ l₂ : List Scope) (n : String)
    (v : LoxObject) (h : l₁.any (fun s => s.contains_key n) = true) :
    overwrite_nearest (l₁ ++ l₂) n v = overwrite_nearest l₁ n v ++ l₂ := by
  induction l₁ with
  | nil => simp at h
  | cons s rest ih =>
      by_cases hs : s.contains_key n = true
      · simp [overwrite_nearest, hs]
      · simp only [List.any_cons, hs, Bool.false_or] at h
        simp [overwrite_nearest, hs, ih h]

theorem overwrite_nearest_append_of_none (l₁ l₂ : List Scope) (n : String)
    (v : LoxObject) (h : l₁.any (fun s => s.contains_key n) = false) :
    overwrite_nearest (l₁ ++ l₂) n v = l₁ ++ overwrite_nearest l₂ n v := by
  induction l₁ with
  | nil => simp
  | cons s rest ih =>
      simp only [List.any_cons, Bool.or_eq_false_iff] at h
      simp [overwrite_nearest, h.1, ih h.2]

theorem MultiScope.assign_fst (ms : MultiScope) (n : String) (v : LoxObject) :
    (ms.assign n v).1
      = ⟨(overwrite_nearest ms.scopes.reverse n v).reverse⟩ := by
  simp [MultiScope.assign, MultiScope.assignRev_fst]

theorem MultiScope.assign_snd (ms : MultiScope) (n : String) (v : LoxObject) :
    (ms.assign n v).2 = MultiScope.getRev ms.scopes.reverse n := by
  simp [MultiScope.assign, MultiScope.assignRev_snd]

theorem Environment.assign_eq_none (g : Scope) (name : Token)
    (v : LoxObject) :
    Environment.assign ⟨none, g⟩ name v
      = (⟨none, (g.define name.lexeme v).1⟩,
         if (g.get name.lexeme).isSome then .ok ()
         else .error (RuntimeError.new name
           ("Undefined variable " ++ name.lexeme))) := by
  unfold Environment.assign
  cases hg : (g.get name.lexeme) <;>
    simp [Scope.define_snd, hg, RuntimeError.new]

theorem Environment.assign_eq_some (ls : MultiScope) (g : Scope)
    (name : Token) (v : LoxObject) :
    Environment.assign ⟨some ls, g⟩ name v
      = if (ls.assign name.lexeme v).2.isSome
        then (⟨some (ls.assign name.lexeme v).1, g⟩, .ok ())
        else (⟨some (ls.assign name.lexeme v).1, (g.define name.lexeme v).1⟩,
              if (g.get name.lexeme).isSome then .ok ()
              else .error (RuntimeError.new name
                ("Undefined variable " ++ name.lexeme))) := by
  unfold Environment.assign
  cases hl : (ls.assign name.lexeme v).2 <;>
    cases hg : (g.get name.lexeme) <;>
      simp [Scope.define_snd, hl, hg, RuntimeError.new]

/-- C5: `Environment::assign` overwrites the binding in the nearest
enclosing scope that contains the name — innermost local scope first,
then outward to the global scope — and it fails with the
undefined-variable runtime error exactly when the name is bound in no
scope. -/
theorem assign_overwrites_nearest_scope (env : Environment) (name : Token)
    (value : LoxObject) :
    ((env.assign name value).2
        = .error (RuntimeError.new name ("Undefined variable " ++ name.lexeme))
      ↔ env.binds name.lexeme = false)
    ∧ (env.binds name.lexeme = true →
        (env.assign name value).2 = .ok ()
        ∧ (env.assign name value).1.chain
            = overwrite_nearest env.chain name.lexeme value) := by
  obtain ⟨lo, g⟩ := env
  cases lo with
  | none =>
      rw [Environment.assign_eq_none]
      by_cases hg : (g.get name.lexeme).isSome = true
      · have hc : g.contains_key name.lexeme = true := by
          rw [← Scope.get_isSome]; exact hg
        refine ⟨?_, fun _ => ⟨by simp [hg], ?_⟩⟩
        · simp [hg, Environment.binds, Environment.chain, hc]
        · simp [hg, Environment.chain, overwrite_nearest, hc]
      · have hc : g.contains_key name.lexeme = false := by
          rw [← Scope.get_isSome]; simpa using hg
        refine ⟨?_, fun hb => ?_⟩
        · simp [hg, Environment.binds, Environment.chain, hc]
        · simp [Environment.binds, Environment.chain, hc] at hb
  | some ls =>
      rw [Environment.assign_eq_some]
      have hsnd : (ls.assign name.lexeme value).2.isSome
          = (ls.scopes.reverse).any (fun s => s.contains_key name.lexeme) := by
        rw [MultiScope.assign_snd, MultiScope.getRev_isSome]
      by_cases hA : (ls.assign name.lexeme value).2.isSome = true
      · have hany : (ls.scopes.reverse).any
            (fun s => s.contains_key name.lexeme) = true := by
          rw [← hsnd]; exact hA
        refine ⟨?_, fun _ => ⟨by simp [hA], ?_⟩⟩
        · simp [hA, Environment.binds, Environment.chain, hany]
        · simp only [hA, if_true]
          rw [MultiScope.assign_fst]
          simp [Environment.chain,
                overwrite_nearest_append_of_any _ _ _ _ hany]
      · have hany : (ls.scopes.reverse).any
            (fun s => s.contains_key name.lexeme) = false := by
          rw [← hsnd]; simpa using hA
        have hfst : (ls.assign name.lexeme value).1 = ls := by
          rw [MultiScope.assign_fst, overwrite_nearest_of_none _ _ _ hany]
          simp
        by_cases hg : (g.get name.lexeme).isSome = true
        · have hc : g.contains_key name.lexeme = true := by
            rw [← Scope.get_isSome]; exact hg
          refine ⟨?_, fun _ => ⟨by simp [hA, hg], ?_⟩⟩
          · simp [hA, hg, Environment.binds, Environment.chain, hc, hany]
          · simp only [hA, Bool.false_eq_true, if_false, hg, if_true]
            rw [hfst]
            rw [show Environment.chain ⟨some ls, g⟩
                  = ls.scopes.reverse ++ [g] from rfl,
                overwrite_nearest_append_of_none _ _ _ _ hany]
            simp [Environment.chain, overwrite_nearest, hc]
        · have hc : g.contains_key name.lexeme = false := by
            rw [← Scope.get_isSome]; simpa using hg
          refine ⟨?_, fun hb => ?_⟩
          · simp [hA, hg, Environment.binds, Environment.chain, hc, hany]
          · simp [Environment.binds, Environment.chain, hc, hany] at hb

/-! ## Concrete tokens and programs used by the claims -/

/-- An identifier token on line 1. -/
def identTok (n : String) : Token := ⟨.Identifier, n, 1⟩

/-- A closing-paren token on line 1. -/
def rpTok : Token := ⟨.RightParen, ")", 1⟩

/-- The declaration of the claim C1 program:
`fun make() { var x = 1; fun get() { return x; } return get; }`. -/
def make_decl : Stmt :=
  .FunctionDeclaration (identTok "make") []
    [ .VariableDeclaration (identTok "x") (some (.Literal ⟨.Number 1, "1", 1⟩)),
      .FunctionDeclaration (identTok "get") []
        [ .Return ⟨.Return, "return", 1⟩ (some (.Variable (identTok "x"))) ],
      .Return ⟨.Return, "return", 1⟩ (some (.Variable (identTok "get"))) ]

/-- The expression `make()()`. -/
def make_call : Expr :=
  .Call (.Call (.Variable (identTok "make")) rpTok []) rpTok []

/-- The environment after executing `make_decl` in a fresh environment. -/
def make_env : Environment :=
  match execute 30 make_decl Interpreter.new Environment.new with
  | some (_, env, _) => env
  | none => Environment.new

/-- An environment in which `f` is declared as a user function of no
parameters and empty body (`fun f() {}`). -/
def arity_env : Environment :=
  function_declaration_statement Environment.new (identTok "f") [] []

/-! ## Claim theorems: values and the interpreter -/

/-- C2 (counterexample): the number `0` is falsey under the
interpreter's truthiness test, refuting the claim that every number
(including 0) is truthy. -/
theorem is_truthy_zero_counterexample :
    LoxObject.is_truthy (LoxObject.Number 0) = false := by rfl

/-- C2 (amended): a runtime value is falsey exactly when it is the
boolean `false`, `nil`, or the number `0`; every other value — every
nonzero number, every string (including the empty string), and every
function — is truthy. -/
theorem is_truthy_false_iff (v : LoxObject) :
    v.is_truthy = false
      ↔ v = .Boolean false ∨ v = .Nil ∨ v = .Number 0 := by
  cases v <;> simp [LoxObject.is_truthy]

/-- C1 (code bug): after executing the claim's declaration
`fun make() { var x = 1; fun get() { return x; } return get; }`,
evaluating `make()()` yields `nil` — not the number `1` — and an
`Undefined variable x` runtime error has been reported: `LoxFunction`
captures no environment at declaration time (its `state` scope is
created empty and never used), and the body of the returned function is
executed against the call-site environment, where `make`'s local `x` no
longer exists. -/
theorem make_call_returns_nil_not_one :
    evaluate 30 make_call Interpreter.new make_env
      = some (⟨⟨true, ["[Line 1] Error at 'x': Undefined variable x"]⟩⟩,
              make_env, .ok .Nil)
    ∧ (Except.ok LoxObject.Nil : RuntimeResult LoxObject)
        ≠ .ok (.Number 1) := by
  refine ⟨by rfl, ?_⟩
  simp

/-- C3 (code bug): when the left operand of an `or` evaluates to a
falsey value, the interpreter's condition
`(operator == Or && lhs truthy) || !(lhs truthy)` still holds, so the
left value is returned and the right operand is never evaluated — the
result does not even depend on `rhs`.  The claim says the right operand
must be evaluated and returned in this case. -/
theorem or_falsey_returns_left (fuel : Nat) (lhs rhs : Expr) (op : Token)
    (i i1 : Interpreter) (env env1 : Environment) (left : LoxObject)
    (hl : evaluate fuel lhs i env = some (i1, env1, .ok left))
    (hf : left.is_truthy = false) :
    evaluate (fuel + 2) (.Logical lhs op rhs) i env
      = some (i1, env1, .ok left) := by
  show evaluate_logical_expression (fuel + 1) lhs op rhs i env = _
  simp [evaluate_logical_expression, hl, hf]

/-- Witness for C3: `false or true` evaluates to the boolean `false`. -/
theorem or_falsey_returns_left_witness :
    evaluate 3 (.Logical (.Literal ⟨.False, "false", 1⟩) ⟨.Or, "or", 1⟩
        (.Literal ⟨.True, "true", 1⟩)) Interpreter.new Environment.new
      = some (Interpreter.new, Environment.new, .ok (.Boolean false)) :=
  or_falsey_returns_left 1 (.Literal ⟨.False, "false", 1⟩)
    (.Literal ⟨.True, "true", 1⟩) ⟨.Or, "or", 1⟩ Interpreter.new
    Interpreter.new Environment.new Environment.new (.Boolean false)
    (by rfl) (by rfl)

/-- C4 (counterexample): in the program
`print-less` equivalent of `y; var a = 5;` the first statement raises an
undefined-variable runtime error, yet the second statement is still
executed — after `interpret` finishes, the error has been reported
*and* `a` is bound to `5`.  This refutes the claim that no subsequent
statement in the list is executed. -/
theorem runtime_error_does_not_halt_script :
    (interpret 10
        [ .Expression (.Variable ⟨.Identifier, "y", 1⟩),
          .VariableDeclaration ⟨.Identifier, "a", 1⟩
            (some (.Literal ⟨.Number 5, "5", 1⟩)) ]
        Interpreter.new).map
      (fun p => (p.1.error_reporter.had_error, p.2.global.get "a"))
      = some (true, some (.Number 5)) := by rfl

/-- C4 (amended): the statement whose execution raises a runtime error
has the error reported to the sink and the remainder of that statement
abandoned, but the script is not halted: `interpret` continues with all
subsequent statements (here shown for an undefined-variable error in the
first statement, followed by an arbitrary statement list). -/
theorem runtime_error_reported_then_execution_continues
    (fuel : Nat) (rest : List Stmt) :
    interpret (fuel + 3)
        (.Expression (.Variable ⟨.Identifier, "y", 1⟩) :: rest)
        Interpreter.new
      = interpret_loop (fuel + 3) rest
          ⟨⟨true, ["[Line 1] Error at 'y': Undefined variable y"]⟩⟩
          Environment.new := by rfl

/-- C6: when `Environment::assign` is called with a name bound in no
scope, it returns the undefined-variable error but has nonetheless
inserted the binding into the global scope (via `Scope::define`), the
local scopes being unchanged — so a subsequent `get` of the same name
succeeds and returns the assigned value. -/
theorem assign_undefined_still_inserts_global (env : Environment)
    (name : Token) (value : LoxObject)
    (h : env.binds name.lexeme = false) :
    (env.assign name value).2
      = .error (RuntimeError.new name
          ("Undefined variable " ++ name.lexeme))
    ∧ (env.assign name value).1.global
        = (env.global.define name.lexeme value).1
    ∧ (env.assign name value).1.«local» = env.«local»
    ∧ (env.assign name value).1.get name = .ok value := by
  obtain ⟨lo, g⟩ := env
  cases lo with
  | none =>
      have hc : g.contains_key name.lexeme = false := by
        simpa [Environment.binds, Environment.chain] using h
      have hg : (g.get name.lexeme).isSome = false := by
        rw [Scope.get_isSome]; exact hc
      rw [Environment.assign_eq_none]
      refine ⟨by simp [hg], rfl, rfl, ?_⟩
      simp [Environment.get, Scope.get_define_self]
  | some ls =>
      have hsplit := h
      simp only [Environment.binds, Environment.chain, List.any_append,
        List.any_cons, List.any_nil, Bool.or_eq_false_iff] at hsplit
      have hany : (ls.scopes.reverse).any
          (fun s => s.contains_key name.lexeme) = false := hsplit.1
      have hc : g.contains_key name.lexeme = false := by
        have := hsplit.2
        simpa using this.1
      have hg : (g.get name.lexeme).isSome = false := by
        rw [Scope.get_isSome]; exact hc
      have hA : (ls.assign name.lexeme value).2.isSome = false := by
        rw [MultiScope.assign_snd, MultiScope.getRev_isSome]; exact hany
      have hfst : (ls.assign name.lexeme value).1 = ls := by
        rw [MultiScope.assign_fst, overwrite_nearest_of_none _ _ _ hany]
        simp
      rw [Environment.assign_eq_some]
      have hlget : MultiScope.get ls name.lexeme = none := by
        have := MultiScope.getRev_isSome ls.scopes.reverse name.lexeme
        rw [hany] at this
        exact Option.not_isSome_iff_eq_none.mp (by simp [MultiScope.get, this])
      refine ⟨by simp [hA, hg], by simp [hA, hg], by simp [hA, hg, hfst], ?_⟩
      simp [hA, hg, hfst, Environment.get, hlget, Scope.get_define_self]

/-- Witness for C6: assigning to the unbound name `zz` in a fresh
environment fails with the undefined-variable error yet leaves `zz`
bound to the assigned value. -/
theorem assign_undefined_still_inserts_global_witness :
    (Environment.new.binds "zz" = false)
    ∧ (Environment.new.assign (identTok "zz") (.Number 7)).2
        = .error (RuntimeError.new (identTok "zz") "Undefined variable zz")
    ∧ (Environment.new.assign (identTok "zz") (.Number 7)).1.get
        (identTok "zz") = .ok (.Number 7) :=
  ⟨by rfl,
   (assign_undefined_still_inserts_global Environment.new (identTok "zz")
      (.Number 7) (by rfl)).1,
   (assign_undefined_still_inserts_global Environment.new (identTok "zz")
      (.Number 7) (by rfl)).2.2.2⟩

/-- Witness for C5: assigning to `clock`, which is bound in the global
scope of a fresh environment, succeeds and rewrites the chain at the
nearest containing scope. -/
theorem assign_overwrites_nearest_scope_witness :
    (Environment.new.binds "clock" = true)
    ∧ (Environment.new.assign (identTok "clock") (.Number 7)).2 = .ok ()
    ∧ (Environment.new.assign (identTok "clock") (.Number 7)).1.chain
        = overwrite_nearest Environment.new.chain "clock" (.Number 7) :=
  ⟨by rfl,
   ((assign_overwrites_nearest_scope Environment.new (identTok "clock")
      (.Number 7)).2 (by rfl)).1,
   ((assign_overwrites_nearest_scope Environment.new (identTok "clock")
      (.Number 7)).2 (by rfl)).2⟩

/-- C7 (counterexample): calling a zero-parameter function with one
argument produces the runtime error message
`"Expect 0 arguments but got 1"` — not `"Expected 0 arguments but got 1"`
as the claim states. -/
theorem call_arity_message_is_Expect_not_Expected :
    evaluate 4 (.Call (.Variable (identTok "f")) rpTok
        [.Literal ⟨.Number 1, "1", 1⟩]) Interpreter.new arity_env
      = some (Interpreter.new, arity_env,
          .error (RuntimeError.new rpTok "Expect 0 arguments but got 1"))
    ∧ "Expect 0 arguments but got 1" ≠ "Expected 0 arguments but got 1" := by
  refine ⟨by rfl, by decide⟩

/-- C7 (amended): when the callee of a call expression evaluates to a
user function and the argument count differs from the function's arity,
evaluation produces a runtime error carrying the call's closing-paren
token with message `"Expect N arguments but got M"` (N the arity, M the
argument count), and no statement of the function body is executed: the
interpreter and environment are exactly those left by the argument
evaluation. -/
theorem call_arity_mismatch (fuel : Nat) (callee : Expr) (cp : Token)
    (args : List Expr) (i i1 i2 : Interpreter)
    (env env1 env2 : Environment) (f : LoxFunction) (vs : List LoxObject)
    (hc : evaluate fuel callee i env = some (i1, env1, .ok (.Function f)))
    (ha : evaluate_args fuel args i1 env1 = some (i2, env2, .ok vs))
    (hn : args.length ≠ f.arity) :
    evaluate (fuel + 2) (.Call callee cp args) i env
      = some (i2, env2, .error (RuntimeError.new cp
          ("Expect " ++ toString f.arity ++ " arguments but got "
            ++ toString args.length))) := by
  show evaluate_call_expr (fuel + 1) callee cp args i env = _
  simp [evaluate_call_expr, hc, ha, hn]

/-- Witness for C7: `f()` declared with no parameters, called with one
argument. -/
theorem call_arity_mismatch_witness :
    evaluate 4 (.Call (.Variable (identTok "f")) rpTok
        [.Literal ⟨.Number 1, "1", 1⟩]) Interpreter.new arity_env
      = some (Interpreter.new, arity_env,
          .error (RuntimeError.new rpTok "Expect 0 arguments but got 1")) :=
  call_arity_mismatch 2 (.Variable (identTok "f")) rpTok
    [.Literal ⟨.Number 1, "1", 1⟩] Interpreter.new Interpreter.new
    Interpreter.new arity_env arity_env arity_env
    (.mk (identTok "f") [] [] Scope.new) [.Number 1]
    (by rfl) (by rfl) (by decide)

/-! ## The parser (`src/lib/parser.rs`) -/

/-- `Display for TokenType` from `src/lib/token.rs` (used when parse
errors are printed).  The `Comma` arm reproduces the source's literal
`".to_owned(),"` string verbatim. -/
def displayTokenType : TokenType → String
  | .LeftParen => "("
  | .RightParen => ")"
  | .LeftBrace => "\x7b"
  | .RightBrace => "\x7d"
  | .Comma => ".to_owned(),"
  | .Dot => "."
  | .Minus => "-"
  | .Plus => "+"
  | .SemiColon => ";"
  | .Slash => "/"
  | .Star => "*"
  | .Bang => "!"
  | .BangEqual => "!="
  | .Equal => "="
  | .EqualEqual => "=="
  | .GreaterEqual => ">="
  | .Greater => ">"
  | .Less => "<"
  | .LessEqual => "<="
  | .Identifier => "identifier"
  | .String s => s
  | .Number n => toString n
  | .And => "&&"
  | .Class => "class"
  | .Else => "else"
  | .False => "false"
  | .Fun => "fun"
  | .For => "for"
  | .If => "if"
  | .Nil => "nil"
  | .Or => "||"
  | .Print => "print"
  | .Return => "return"
  | .Super => "super"
  | .This => "this"
  | .True => "true"
  | .Var => "var"
  | .While => "while"
  | .Eof => "eof"

/-- Dot-notation alias for `displayTokenType`. -/
def TokenType.display (t : TokenType) := displayTokenType t

/-- `ParseErrorCtx` from `src/lib/error/parse_error.rs`. -/
structure ParseErrorCtx where
  token : Token
deriving Repr

/-- `ParseError` from `src/lib/error/parse_error.rs`. -/
inductive ParseError where
  | InvalidAssignmentTarget (ctx : ParseErrorCtx)
  | ExpectedExpression (ctx : ParseErrorCtx)
  | ExpectedDifferentToken (ctx : ParseErrorCtx) (tt : TokenType)
  | TooManyFunctionArguments (ctx : ParseErrorCtx)
deriving Repr

/-- `Display for ParseErrorCtx`: `[Line n] Error at 'lexeme'`. -/
def ParseErrorCtx.display (c : ParseErrorCtx) : String :=
  "[Line " ++ toString c.token.line ++ "] Error at '" ++ c.token.lexeme ++ "'"

/-- `Display for ParseError` (the `thiserror` format strings). -/
def ParseError.display : ParseError → String
  | .InvalidAssignmentTarget ctx =>
      ctx.display ++ ": Invalid Assignment Target"
  | .ExpectedExpression ctx => ctx.display ++ ": Expected Expression"
  | .ExpectedDifferentToken ctx tt =>
      ctx.display ++ ": Expected '" ++ tt.display ++ "'"
  | .TooManyFunctionArguments ctx =>
      ctx.display
        ++ ": Cannot have more that 255 arguments for a function (Seriously chill)"

/-- `ParseResult<T>`. -/
abbrev ParseResult (α : Type) := Except ParseError α

/-- `Parser` from `src/lib/parser.rs`: the token list, the current
index, the error reporter, and the scope depth counter. -/
structure Parser where
  tokens : List Token
  current : Nat
  error_reporter : ErrorReporter
  depth : Nat

/-- `Parser::new`. -/
def Parser.new (tokens : List Token) (error_reporter : ErrorReporter) :
    Parser :=
  ⟨tokens, 0, error_reporter, 0⟩

/-- `Parser::current_token`.  The Rust method panics on a missing index;
all inputs used here end in `Eof`, which the parser never steps past, so
the default is never reached. -/
def Parser.current_token (p : Parser) : Token :=
  (p.tokens.get? p.current).getD ⟨.Eof, "", 0⟩

/-- `Parser::previous_token` (same caveat as `current_token`). -/
def Parser.previous_token (p : Parser) : Token :=
  (p.tokens.get? (p.current - 1)).getD ⟨.Eof, "", 0⟩

/-- `Parser::is_at_end`: the current token is `Eof`. -/
def Parser.is_at_end (p : Parser) : Bool :=
  p.current_token.token_type == .Eof

/-- `Parser::current_token_is_a`. -/
def Parser.current_token_is_a (p : Parser) (tt : TokenType) : Bool :=
  if p.is_at_end then false else p.current_token.token_type == tt

/-- `Parser::advance`: step past the current token unless at the end,
returning the token that was current. -/
def Parser.advance (p : Parser) : Parser × Token :=
  let p := if p.is_at_end then p else { p with current := p.current + 1 }
  (p, p.previous_token)

/-- `Parser::advance_on_any_of`: advance on the first matching token
type of the list. -/
def Parser.advance_on_any_of (p : Parser) (tts : List TokenType) :
    Parser × Bool :=
  match tts with
  | [] => (p, false)
  | tt :: rest =>
      if p.current_token_is_a tt then ((p.advance).1, true)
      else p.advance_on_any_of rest

/-- `Parser::advance_on`. -/
def Parser.advance_on (p : Parser) (tt : TokenType) : Parser × Bool :=
  p.advance_on_any_of [tt]

/-- `Parser::err_ctx`: the context of the current token. -/
def Parser.err_ctx (p : Parser) : ParseErrorCtx := ⟨p.current_token⟩

/-- `Parser::advance_on_or_err`: advance past a token of the required
type or produce `ExpectedDifferentToken`. -/
def Parser.advance_on_or_err (p : Parser) (tt : TokenType) :
    Parser × ParseResult Token :=
  if p.current_token_is_a tt then
    let (p, t) := p.advance
    (p, .ok t)
  else (p, .error (.ExpectedDifferentToken p.err_ctx tt))

/-- `self.error_reporter.error(e)` for a parse error `e`. -/
def Parser.report (p : Parser) (e : ParseError) : Parser :=
  { p with error_reporter := p.error_reporter.error e.display }

/-- The loop of `Parser::synchronize`: advance until the previous token
is a semicolon or the current token begins a statement. -/
def Parser.synchronize_loop (fuel : Nat) (p : Parser) : Parser :=
  match fuel with
  | 0 => p
  | fuel + 1 =>
      if p.is_at_end then p
      else if p.previous_token.token_type == .SemiColon
          || [TokenType.Class, .For, .Fun, .If, .Return, .Var, .While].any
               (fun tt => tt == p.current_token.token_type) then p
      else Parser.synchronize_loop fuel (p.advance).1

/-- `Parser::synchronize`: advance once, then scan to a statement
boundary. -/
def Parser.synchronize (fuel : Nat) (p : Parser) : Parser :=
  Parser.synchronize_loop fuel (p.advance).1

/-- The desugaring construction at the end of `Parser::for_statement`
(`src/lib/parser.rs` lines 205-234): attach the increment as a trailing
statement of a block, default the condition to a literal `true`, wrap in
a `While`, and prepend the initializer inside a block. -/
def Parser.build_for_loop (initializer : Option Stmt)
    (condition : Option Expr) (increment : Option Expr) (body : Stmt) :
    Stmt :=
  let body :=
    match increment with
    | some inc => Stmt.Block [body, Stmt.Expression inc]
    | none => body
  let condition :=
    match condition with
    | none => Expr.Literal ⟨.True, "true", 0⟩
    | some c => c
  let body := Stmt.While condition body
  match initializer with
  | some init => Stmt.Block [init, body]
  | none => body

mutual

/-- `Parser::parse_item`: parse one declaration; on error, report it and
synchronize. -/
def Parser.parse_item (fuel : Nat) (p : Parser) :
    Option (Parser × Option Stmt) :=
  match fuel with
  | 0 => none
  | fuel + 1 =>
      match Parser.declaration fuel p with
      | none => none
      | some (p, .ok stmt) => some (p, some stmt)
      | some (p, .error e) =>
          some (Parser.synchronize fuel (p.report e), none)

/-- `Parser::declaration`: function declaration, variable declaration,
or statement. -/
def Parser.declaration (fuel : Nat) (p : Parser) :
    Option (Parser × ParseResult Stmt) :=
  match fuel with
  | 0 => none
  | fuel + 1 =>
      match p.advance_on .Fun with
      | (p, true) =>
          match Parser.function_declaration fuel p with
          | none => none
          | some (p, .error e) => some (p, .error e)
          | some (p, .ok (name, params, body)) =>
              some (p, .ok (.FunctionDeclaration name params body))
      | (p, false) =>
          match p.advance_on .Var with
          | (p, true) =>
              match Parser.var_declaration fuel p with
              | none => none
              | some (p, .error e) => some (p, .error e)
              | some (p, .ok (name, initializer)) =>
                  some (p, .ok (.VariableDeclaration name initializer))
          | (p, false) => Parser.statement fuel p

/-- `Parser::function_declaration` (`src/lib/parser.rs` lines 85-121):
name, parenthesised parameter list (reporting `TooManyFunctionArguments`
from the loop once `params.len() >= 255`), then a block body. -/
def Parser.function_declaration (fuel : Nat) (p : Parser) :
    Option (Parser × ParseResult (Token × List Token × List Stmt)) :=
  match fuel with
  | 0 => none
  | fuel + 1 =>
      match p.advance_on_or_err .Identifier with
      | (p, .error e) => some (p, .error e)
      | (p, .ok name) =>
      match p.advance_on_or_err .LeftParen with
      | (p, .error e) => some (p, .error e)
      | (p, .ok left_paren) =>
      let firstParam :
          Option (Parser × ParseResult (List Token)) :=
        if !(p.current_token_is_a .RightParen) then
          match p.advance_on_or_err .Identifier with
          | (p, .error e) => some (p, .error e)
          | (p, .ok first) =>
              Parser.function_params_loop fuel p left_paren [first]
        else some (p, .ok [])
      match firstParam with
      | none => none
      | some (p, .error e) => some (p, .error e)
      | some (p, .ok params) =>
      match p.advance_on_or_err .RightParen with
      | (p, .error e) => some (p, .error e)
      | (p, .ok _) =>
      match p.advance_on_or_err .LeftBrace with
      | (p, .error e) => some (p, .error e)
      | (p, .ok _) =>
      match Parser.block_statement fuel p with
      | none => none
      | some (p, .error e) => some (p, .error e)
      | some (p, .ok body) => some (p, .ok (name, params, body))

/-- The parameter loop of `Parser::function_declaration`: while a comma
follows, parse another identifier, then report
`TooManyFunctionArguments` (at the opening paren) whenever the
accumulated count has reached 255. -/
def Parser.function_params_loop (fuel : Nat) (p : Parser)
    (left_paren : Token) (params : List Token) :
    Option (Parser × ParseResult (List Token)) :=
  match fuel with
  | 0 => none
  | fuel + 1 =>
      match p.advance_on .Comma with
      | (p, false) => some (p, .ok params)
      | (p, true) =>
          match p.advance_on_or_err .Identifier with
          | (p, .error e) => some (p, .error e)
          | (p, .ok tok) =>
              let params := params ++ [tok]
              let p :=
                if params.length ≥ 255 then
                  p.report (.TooManyFunctionArguments ⟨left_paren⟩)
                else p
              Parser.function_params_loop fuel p left_paren params

/-- `Parser::var_declaration`. -/
def Parser.var_declaration (fuel : Nat) (p : Parser) :
    Option (Parser × ParseResult (Token × Option Expr)) :=
  match fuel with
  | 0 => none
  | fuel + 1 =>
      match p.advance_on_or_err .Identifier with
      | (p, .error e) => some (p, .error e)
      | (p, .ok name) =>
      match p.advance_on .Equal with
      | (p, true) =>
          match Parser.expression fuel p with
          | none => none
          | some (p, .error e) => some (p, .error e)
          | some (p, .ok init) =>
              match p.advance_on_or_err .SemiColon with
              | (p, .error e) => some (p, .error e)
              | (p, .ok _) => some (p, .ok (name, some init))
      | (p, false) =>
          match p.advance_on_or_err .SemiColon with
          | (p, .error e) => some (p, .error e)
          | (p, .ok _) => some (p, .ok (name, none))

/-- `Parser::statement`. -/
def Parser.statement (fuel : Nat) (p : Parser) :
    Option (Parser × ParseResult Stmt) :=
  match fuel with
  | 0 => none
  | fuel + 1 =>
      match p.advance_on .If with
      | (p, true) =>
          match Parser.if_statement fuel p with
          | none => none
          | some (p, .error e) => some (p, .error e)
          | some (p, .ok (c, t, e)) => some (p, .ok (.If c t e))
      | (p, false) =>
      match p.advance_on .For with
      | (p, true) => Parser.for_statement fuel p
      | (p, false) =>
      match p.advance_on .While with
      | (p, true) =>
          match Parser.while_statement fuel p with
          | none => none
          | some (p, .error e) => some (p, .error e)
          | some (p, .ok (c, b)) => some (p, .ok (.While c b))
      | (p, false) =>
      match p.advance_on .Return with
      | (p, true) =>
          match Parser.return_statement fuel p with
          | none => none
          | some (p, .error e) => some (p, .error e)
          | some (p, .ok (kw, v)) => some (p, .ok (.Return kw v))
      | (p, false) =>
      match p.advance_on .LeftBrace with
      | (p, true) =>
          match Parser.block_statement fuel p with
          | none => none
          | some (p, .error e) => some (p, .error e)
          | some (p, .ok body) => some (p, .ok (.Block body))
      | (p, false) => Parser.expression_statement fuel p

/-- `Parser::for_statement` (`src/lib/parser.rs` lines 176-235): parse
`( initializer ; condition ; increment )` and the body, then build the
desugared while loop. -/
def Parser.for_statement (fuel : Nat) (p : Parser) :
    Option (Parser × ParseResult Stmt) :=
  match fuel with
  | 0 => none
  | fuel + 1 =>
      match p.advance_on_or_err .LeftParen with
      | (p, .error e) => some (p, .error e)
      | (p, .ok _) =>
      let initRes : Option (Parser × ParseResult (Option Stmt)) :=
        match p.advance_on .SemiColon with
        | (p, true) => some (p, .ok none)
        | (p, false) =>
            match p.advance_on .Var with
            | (p, true) =>
                match Parser.var_declaration fuel p with
                | none => none
                | some (p, .error e) => some (p, .error e)
                | some (p, .ok (name, init)) =>
                    some (p, .ok (some (.VariableDeclaration name init)))
            | (p, false) =>
                match Parser.expression_statement fuel p with
                | none => none
                | some (p, .error e) => some (p, .error e)
                | some (p, .ok stmt) => some (p, .ok (some stmt))
      match initRes with
      | none => none
      | some (p, .error e) => some (p, .error e)
      | some (p, .ok initializer) =>
      let condRes : Option (Parser × ParseResult (Option Expr)) :=
        if !(p.current_token_is_a .SemiColon) then
          match Parser.expression fuel p with
          | none => none
          | some (p, .error e) => some (p, .error e)
          | some (p, .ok c) => some (p, .ok (some c))
        else some (p, .ok none)
      match condRes with
      | none => none
      | some (p, .error e) => some (p, .error e)
      | some (p, .ok condition) =>
      match p.advance_on_or_err .SemiColon with
      | (p, .error e) => some (p, .error e)
      | (p, .ok _) =>
      let incRes : Option (Parser × ParseResult (Option Expr)) :=
        if !(p.current_token_is_a .RightParen) then
          match Parser.expression fuel p with
          | none => none
          | some (p, .error e) => some (p, .error e)
          | some (p, .ok u) => some (p, .ok (some u))
        else some (p, .ok none)
      match incRes with
      | none => none
      | some (p, .error e) => some (p, .error e)
      | some (p, .ok increment) =>
      match p.advance_on_or_err .RightParen with
      | (p, .error e) => some (p, .error e)
      | (p, .ok _) =>
      match Parser.statement fuel p with
      | none => none
      | some (p, .error e) => some (p, .error e)
      | some (p, .ok body) =>
          some (p, .ok (Parser.build_for_loop initializer condition
            increment body))

/-- `Parser::while_statement`. -/
def Parser.while_statement (fuel : Nat) (p : Parser) :
    Option (Parser × ParseResult (Expr × Stmt)) :=
  match fuel with
  | 0 => none
  | fuel + 1 =>
      match p.advance_on_or_err .LeftParen with
      | (p, .error e) => some (p, .error e)
      | (p, .ok _) =>
      match Parser.expression fuel p with
      | none => none
      | some (p, .error e) => some (p, .error e)
      | some (p, .ok condition) =>
      match p.advance_on_or_err .RightParen with
      | (p, .error e) => some (p, .error e)
      | (p, .ok _) =>
      match Parser.statement fuel p with
      | none => none
      | some (p, .error e) => some (p, .error e)
      | some (p, .ok body) => some (p, .ok (condition, body))

/-- `Parser::return_statement`. -/
def Parser.return_statement (fuel : Nat) (p : Parser) :
    Option (Parser × ParseResult (Token × Option Expr)) :=
  match fuel with
  | 0 => none
  | fuel + 1 =>
      let return_keyword := p.previous_token
      if !(p.current_token_is_a .SemiColon) then
        match Parser.expression fuel p with
        | none => none
        | some (p, .error e) => some (p, .error e)
        | some (p, .ok v) =>
            match p.advance_on_or_err .SemiColon with
            | (p, .error e) => some (p, .error e)
            | (p, .ok _) => some (p, .ok (return_keyword, some v))
      else
        match p.advance_on_or_err .SemiColon with
        | (p, .error e) => some (p, .error e)
        | (p, .ok _) => some (p, .ok (return_keyword, none))

/-- `Parser::if_statement`. -/
def Parser.if_statement (fuel : Nat) (p : Parser) :
    Option (Parser × ParseResult (Expr × Stmt × Option Stmt)) :=
  match fuel with
  | 0 => none
  | fuel + 1 =>
      match p.advance_on_or_err .LeftParen with
      | (p, .error e) => some (p, .error e)
      | (p, .ok _) =>
      match Parser.expression fuel p with
      | none => none
      | some (p, .error e) => some (p, .error e)
      | some (p, .ok condition) =>
      match p.advance_on_or_err .RightParen with
      | (p, .error e) => some (p, .error e)
      | (p, .ok _) =>
      match Parser.statement fuel p with
      | none => none
      | some (p, .error e) => some (p, .error e)
      | some (p, .ok then_branch) =>
      match p.advance_on .Else with
      | (p, true) =>
          match Parser.statement fuel p with
          | none => none
          | some (p, .error e) => some (p, .error e)
          | some (p, .ok else_branch) =>
              some (p, .ok (condition, then_branch, some else_branch))
      | (p, false) => some (p, .ok (condition, then_branch, none))

/-- `Parser::block_statement`: bump `depth`, collect declarations until
`}` or the end, require the closing brace, and restore `depth` (the Rust
`?` on the closing brace skips the `depth -= 1` on failure). -/
def Parser.block_statement (fuel : Nat) (p : Parser) :
    Option (Parser × ParseResult (List Stmt)) :=
  match fuel with
  | 0 => none
  | fuel + 1 =>
      let p := { p with depth := p.depth + 1 }
      match Parser.block_loop fuel p [] with
      | none => none
      | some (p, statements) =>
          match p.advance_on_or_err .RightBrace with
          | (p, .error e) => some (p, .error e)
          | (p, .ok _) =>
              some ({ p with depth := p.depth - 1 }, .ok statements)

/-- The statement-collecting loop of `Parser::block_statement`. -/
def Parser.block_loop (fuel : Nat) (p : Parser) (acc : List Stmt) :
    Option (Parser × List Stmt) :=
  match fuel with
  | 0 => none
  | fuel + 1 =>
      if !p.is_at_end && !(p.current_token_is_a .RightBrace) then
        match Parser.parse_item fuel p with
        | none => none
        | some (p, some stmt) => Parser.block_loop fuel p (acc ++ [stmt])
        | some (p, none) => Parser.block_loop fuel p acc
      else some (p, acc)

/-- `Parser::expression_statement`. -/
def Parser.expression_statement (fuel : Nat) (p : Parser) :
    Option (Parser × ParseResult Stmt) :=
  match fuel with
  | 0 => none
  | fuel + 1 =>
      match Parser.expression fuel p with
      | none => none
      | some (p, .error e) => some (p, .error e)
      | some (p, .ok expr) =>
          match p.advance_on_or_err .SemiColon with
          | (p, .error e) => some (p, .error e)
          | (p, .ok _) => some (p, .ok (.Expression expr))

/-- `Parser::expression`: an expression is an assignment. -/
def Parser.expression (fuel : Nat) (p : Parser) :
    Option (Parser × ParseResult Expr) :=
  match fuel with
  | 0 => none
  | fuel + 1 => Parser.assignment fuel p

/-- `Parser::assignment`: parse the LHS, and on `=` recursively parse
the value; a non-`Variable` LHS reports `InvalidAssignmentTarget` (the
parse still succeeds with the LHS). -/
def Parser.assignment (fuel : Nat) (p : Parser) :
    Option (Parser × ParseResult Expr) :=
  match fuel with
  | 0 => none
  | fuel + 1 =>
      match Parser.or_expr fuel p with
      | none => none
      | some (p, .error e) => some (p, .error e)
      | some (p, .ok expr) =>
          match p.advance_on .Equal with
          | (p, true) =>
              let equals := p.previous_token
              match Parser.assignment fuel p with
              | none => none
              | some (p, .error e) => some (p, .error e)
              | some (p, .ok value) =>
                  match expr with
                  | .Variable name =>
                      some (p, .ok (.Assignment name value))
                  | _ =>
                      some (p.report (.InvalidAssignmentTarget ⟨equals⟩),
                        .ok expr)
          | (p, false) => some (p, .ok expr)

/-- `Parser::or`. -/
def Parser.or_expr (fuel : Nat) (p : Parser) :
    Option (Parser × ParseResult Expr) :=
  match fuel with
  | 0 => none
  | fuel + 1 =>
      match Parser.and_expr fuel p with
      | none => none
      | some (p, .error e) => some (p, .error e)
      | some (p, .ok expr) => Parser.or_loop fuel p expr

/-- The `or` repetition loop. -/
def Parser.or_loop (fuel : Nat) (p : Parser) (expr : Expr) :
    Option (Parser × ParseResult Expr) :=
  match fuel with
  | 0 => none
  | fuel + 1 =>
      match p.advance_on .Or with
      | (p, false) => some (p, .ok expr)
      | (p, true) =>
          let operator := p.previous_token
          match Parser.and_expr fuel p with
          | none => none
          | some (p, .error e) => some (p, .error e)
          | some (p, .ok right) =>
              Parser.or_loop fuel p (.Logical expr operator right)

/-- `Parser::and`. -/
def Parser.and_expr (fuel : Nat) (p : Parser) :
    Option (Parser × ParseResult Expr) :=
  match fuel with
  | 0 => none
  | fuel + 1 =>
      match Parser.equality fuel p with
      | none => none
      | some (p, .error e) => some (p, .error e)
      | some (p, .ok expr) => Parser.and_loop fuel p expr

/-- The `and` repetition loop. -/
def Parser.and_loop (fuel : Nat) (p : Parser) (expr : Expr) :
    Option (Parser × ParseResult Expr) :=
  match fuel with
  | 0 => none
  | fuel + 1 =>
      match p.advance_on .And with
      | (p, false) => some (p, .ok expr)
      | (p, true) =>
          let operator := p.previous_token
          match Parser.equality fuel p with
          | none => none
          | some (p, .error e) => some (p, .error e)
          | some (p, .ok right) =>
              Parser.and_loop fuel p (.Logical expr operator right)

/-- `Parser::equality`. -/
def Parser.equality (fuel : Nat) (p : Parser) :
    Option (Parser × ParseResult Expr) :=
  match fuel with
  | 0 => none
  | fuel + 1 =>
      match Parser.comparison fuel p with
      | none => none
      | some (p, .error e) => some (p, .error e)
      | some (p, .ok expr) => Parser.equality_loop fuel p expr

/-- The `!=` / `==` repetition loop. -/
def Parser.equality_loop (fuel : Nat) (p : Parser) (expr : Expr) :
    Option (Parser × ParseResult Expr) :=
  match fuel with
  | 0 => none
  | fuel + 1 =>
      match p.advance_on_any_of [.BangEqual, .EqualEqual] with
      | (p, false) => some (p, .ok expr)
      | (p, true) =>
          let operator := p.previous_token
          match Parser.comparison fuel p with
          | none => none
          | some (p, .error e) => some (p, .error e)
          | some (p, .ok right) =>
              Parser.equality_loop fuel p (.Binary expr operator right)

/-- `Parser::comparison`. -/
def Parser.comparison (fuel : Nat) (p : Parser) :
    Option (Parser × ParseResult Expr) :=
  match fuel with
  | 0 => none
  | fuel + 1 =>
      match Parser.term fuel p with
      | none => none
      | some (p, .error e) => some (p, .error e)
      | some (p, .ok expr) => Parser.comparison_loop fuel p expr

/-- The `>` `>=` `<` `<=` repetition loop. -/
def Parser.comparison_loop (fuel : Nat) (p : Parser) (expr : Expr) :
    Option (Parser × ParseResult Expr) :=
  match fuel with
  | 0 => none
  | fuel + 1 =>
      match p.advance_on_any_of [.GreaterEqual, .Greater, .LessEqual, .Less] with
      | (p, false) => some (p, .ok expr)
      | (p, true) =>
          let operator := p.previous_token
          match Parser.term fuel p with
          | none => none
          | some (p, .error e) => some (p, .error e)
          | some (p, .ok right) =>
              Parser.comparison_loop fuel p (.Binary expr operator right)

/-- `Parser::term`. -/
def Parser.term (fuel : Nat) (p : Parser) :
    Option (Parser × ParseResult Expr) :=
  match fuel with
  | 0 => none
  | fuel + 1 =>
      match Parser.factor fuel p with
      | none => none
      | some (p, .error e) => some (p, .error e)
      | some (p, .ok expr) => Parser.term_loop fuel p expr

/-- The `+` / `-` repetition loop. -/
def Parser.term_loop (fuel : Nat) (p : Parser) (expr : Expr) :
    Option (Parser × ParseResult Expr) :=
  match fuel with
  | 0 => none
  | fuel + 1 =>
      match p.advance_on_any_of [.Plus, .Minus] with
      | (p, false) => some (p, .ok expr)
      | (p, true) =>
          let operator := p.previous_token
          match Parser.factor fuel p with
          | none => none
          | some (p, .error e) => some (p, .error e)
          | some (p, .ok right) =>
              Parser.term_loop fuel p (.Binary expr operator right)

/-- `Parser::factor`. -/
def Parser.factor (fuel : Nat) (p : Parser) :
    Option (Parser × ParseResult Expr) :=
  match fuel with
  | 0 => none
  | fuel + 1 =>
      match Parser.unary fuel p with
      | none => none
      | some (p, .error e) => some (p, .error e)
      | some (p, .ok expr) => Parser.factor_loop fuel p expr

/-- The `/` / `*` repetition loop. -/
def Parser.factor_loop (fuel : Nat) (p : Parser) (expr : Expr) :
    Option (Parser × ParseResult Expr) :=
  match fuel with
  | 0 => none
  | fuel + 1 =>
      match p.advance_on_any_of [.Slash, .Star] with
      | (p, false) => some (p, .ok expr)
      | (p, true) =>
          let operator := p.previous_token
          match Parser.unary fuel p with
          | none => none
          | some (p, .error e) => some (p, .error e)
          | some (p, .ok right) =>
              Parser.factor_loop fuel p (.Binary expr operator right)

/-- `Parser::unary`: prefix `!` or `-`, else a call. -/
def Parser.unary (fuel : Nat) (p : Parser) :
    Option (Parser × ParseResult Expr) :=
  match fuel with
  | 0 => none
  | fuel + 1 =>
      match p.advance_on_any_of [.Bang, .Minus] with
      | (p, true) =>
          let operator := p.previous_token
          match Parser.unary fuel p with
          | none => none
          | some (p, .error e) => some (p, .error e)
          | some (p, .ok right) => some (p, .ok (.Unary operator right))
      | (p, false) => Parser.call fuel p

/-- `Parser::call`: a primary followed by any number of argument
lists. -/
def Parser.call (fuel : Nat) (p : Parser) :
    Option (Parser × ParseResult Expr) :=
  match fuel with
  | 0 => none
  | fuel + 1 =>
      match Parser.primary fuel p with
      | none => none
      | some (p, .error e) => some (p, .error e)
      | some (p, .ok expr) => Parser.call_loop fuel p expr

/-- The call-chaining loop of `Parser::call`. -/
def Parser.call_loop (fuel : Nat) (p : Parser) (expr : Expr) :
    Option (Parser × ParseResult Expr) :=
  match fuel with
  | 0 => none
  | fuel + 1 =>
      match p.advance_on .LeftParen with
      | (p, false) => some (p, .ok expr)
      | (p, true) =>
          match Parser.finish_call fuel p expr with
          | none => none
          | some (p, .error e) => some (p, .error e)
          | some (p, .ok expr) => Parser.call_loop fuel p expr

/-- `Parser::finish_call` (`src/lib/parser.rs` lines 465-484): parse the
argument list (reporting `TooManyFunctionArguments` — without
synchronizing — when another argument follows 255 already parsed), then
the closing paren, producing the call expression. -/
def Parser.finish_call (fuel : Nat) (p : Parser) (callee : Expr) :
    Option (Parser × ParseResult Expr) :=
  match fuel with
  | 0 => none
  | fuel + 1 =>
      let argsRes : Option (Parser × ParseResult (List Expr)) :=
        if !(p.current_token_is_a .RightParen) then
          match Parser.expression fuel p with
          | none => none
          | some (p, .error e) => some (p, .error e)
          | some (p, .ok first) => Parser.call_args_loop fuel p [first]
        else some (p, .ok [])
      match argsRes with
      | none => none
      | some (p, .error e) => some (p, .error e)
      | some (p, .ok args) =>
          match p.advance_on_or_err .RightParen with
          | (p, .error e) => some (p, .error e)
          | (p, .ok closing_paren) =>
              some (p, .ok (.Call callee closing_paren args))

/-- The argument loop of `Parser::finish_call`: while a comma follows,
first report `TooManyFunctionArguments` (at the current token) if 255
arguments have already been collected, then parse the next argument. -/
def Parser.call_args_loop (fuel : Nat) (p : Parser) (args : List Expr) :
    Option (Parser × ParseResult (List Expr)) :=
  match fuel with
  | 0 => none
  | fuel + 1 =>
      match p.advance_on .Comma with
      | (p, false) => some (p, .ok args)
      | (p, true) =>
          let p :=
            if args.length ≥ 255 then
              p.report (.TooManyFunctionArguments p.err_ctx)
            else p
          match Parser.expression fuel p with
          | none => none
          | some (p, .error e) => some (p, .error e)
          | some (p, .ok arg) =>
              Parser.call_args_loop fuel p (args ++ [arg])

/-- `Parser::primary`: identifier, grouping, `true`/`false`/`nil`,
string or number literal, else `ExpectedExpression`. -/
def Parser.primary (fuel : Nat) (p : Parser) :
    Option (Parser × ParseResult Expr) :=
  match fuel with
  | 0 => none
  | fuel + 1 =>
      match p.advance_on .Identifier with
      | (p, true) => some (p, .ok (.Variable p.previous_token))
      | (p, false) =>
      match p.advance_on .LeftParen with
      | (p, true) =>
          match Parser.expression fuel p with
          | none => none
          | some (p, .error e) => some (p, .error e)
          | some (p, .ok expr) =>
              match p.advance_on_or_err .RightParen with
              | (p, .error e) => some (p, .error e)
              | (p, .ok _) => some (p, .ok (.Grouping expr))
      | (p, false) =>
      match p.advance_on_any_of [.True, .False, .Nil] with
      | (p, true) => some (p, .ok (.Literal p.previous_token))
      | (p, false) =>
          match p.current_token.token_type with
          | .String _ =>
              let (p, t) := p.advance
              some (p, .ok (.Literal t))
          | .Number _ =>
              let (p, t) := p.advance
              some (p, .ok (.Literal t))
          | _ => some (p, .error (.ExpectedExpression p.err_ctx))

end

/-- The statement loop of `Parser::parse`. -/
def Parser.parse_loop (fuel : Nat) (p : Parser) (acc : List Stmt) :
    Option (Parser × List Stmt) :=
  match fuel with
  | 0 => none
  | fuel + 1 =>
      if !p.is_at_end then
        match Parser.parse_item fuel p with
        | none => none
        | some (p, some stmt) => Parser.parse_loop fuel p (acc ++ [stmt])
        | some (p, none) => Parser.parse_loop fuel p acc
      else some (p, acc)

/-- `Parser::parse` (`src/lib/parser.rs` lines 45-55): parse
declarations until `Eof`, returning the statements and the enriched
error reporter. -/
def Parser.parse (fuel : Nat) (p : Parser) :
    Option (List Stmt × ErrorReporter) :=
  match Parser.parse_loop fuel p [] with
  | none => none
  | some (p, statements) => some (statements, p.error_reporter)

/-! ## Parser stepping lemmas

These relate the parser primitives to the list of tokens remaining from
the current position. -/

theorem list_get?_eq_head?_drop {α : Type} :
    ∀ (l : List α) (n : Nat), l.get? n = (l.drop n).head?
  | [], 0 => rfl
  | [], _ + 1 => rfl
  | _ :: _, 0 => rfl
  | _ :: l, n + 1 => by
      simp [list_get?_eq_head?_drop l n]

theorem list_drop_succ {α : Type} :
    ∀ (l : List α) (n : Nat), l.drop (n + 1) = (l.drop n).tail
  | [], 0 => rfl
  | [], _ + 1 => rfl
  | _ :: _, 0 => rfl
  | _ :: l, n + 1 => list_drop_succ l n

theorem Parser.current_token_of_drop {p : Parser} {t : Token}
    {rest : List Token} (h : p.tokens.drop p.current = t :: rest) :
    p.current_token = t := by
  unfold Parser.current_token
  rw [list_get?_eq_head?_drop, h]
  rfl

theorem Parser.drop_succ_of_drop {p : Parser} {t : Token}
    {rest : List Token} (h : p.tokens.drop p.current = t :: rest) :
    p.tokens.drop (p.current + 1) = rest := by
  rw [list_drop_succ, h]
  rfl

theorem Parser.is_at_end_of_drop {p : Parser} {t : Token}
    {rest : List Token} (h : p.tokens.drop p.current = t :: rest)
    (ht : t.token_type ≠ .Eof) : p.is_at_end = false := by
  unfold Parser.is_at_end
  rw [Parser.current_token_of_drop h]
  simpa using ht

theorem Parser.advance_of_drop {p : Parser} {t : Token}
    {rest : List Token} (h : p.tokens.drop p.current = t :: rest)
    (ht : t.token_type ≠ .Eof) :
    p.advance = ({ p with current := p.current + 1 }, t) := by
  unfold Parser.advance
  rw [Parser.is_at_end_of_drop h ht]
  simp only [Bool.false_eq_true, if_false]
  unfold Parser.previous_token
  simp only [Nat.add_sub_cancel]
  rw [show ({ p with current := p.current + 1 } : Parser).tokens
        = p.tokens from rfl,
      list_get?_eq_head?_drop, h]
  rfl

theorem Parser.current_token_is_a_of_drop {p : Parser} {t : Token}
    {rest : List Token} (h : p.tokens.drop p.current = t :: rest)
    (ht : t.token_type ≠ .Eof) (tt : TokenType) :
    p.current_token_is_a tt = (t.token_type == tt) := by
  unfold Parser.current_token_is_a
  rw [Parser.is_at_end_of_drop h ht, Parser.current_token_of_drop h]
  rfl

theorem Parser.advance_on_match {p : Parser} {t : Token}
    {rest : List Token} (h : p.tokens.drop p.current = t :: rest)
    (ht : t.token_type ≠ .Eof) {tt : TokenType}
    (htt : t.token_type = tt) :
    p.advance_on tt = ({ p with current := p.current + 1 }, true) := by
  unfold Parser.advance_on Parser.advance_on_any_of
  rw [Parser.current_token_is_a_of_drop h ht, htt]
  simp [Parser.advance_of_drop h ht]

theorem Parser.advance_on_miss {p : Parser} {t : Token}
    {rest : List Token} (h : p.tokens.drop p.current = t :: rest)
    (ht : t.token_type ≠ .Eof) {tt : TokenType}
    (htt : t.token_type ≠ tt) :
    p.advance_on tt = (p, false) := by
  unfold Parser.advance_on Parser.advance_on_any_of
  rw [Parser.current_token_is_a_of_drop h ht]
  simp [Parser.advance_on_any_of, htt]

theorem Parser.advance_on_or_err_match {p : Parser} {t : Token}
    {rest : List Token} (h : p.tokens.drop p.current = t :: rest)
    (ht : t.token_type ≠ .Eof) {tt : TokenType}
    (htt : t.token_type = tt) :
    p.advance_on_or_err tt = ({ p with current := p.current + 1 }, .ok t) := by
  unfold Parser.advance_on_or_err
  rw [Parser.current_token_is_a_of_drop h ht, htt]
  simp [Parser.advance_of_drop h ht]

/-! ## Claim C9: `for` desugaring -/

/-- The desugared statement exactly as the claim words it:
`for (I; C; U) B` becomes `{ I; while (C) { B; U; } }` — a while loop
whose body is a *block* of the original body and the increment as a
trailing expression statement; a literal `true` replaces an absent
condition, an absent initializer omits the outer wrapping block, and an
absent increment omits the trailing expression statement (leaving the
block holding only the body). -/
def spec_for_desugar (initializer : Option Stmt) (condition : Option Expr)
    (increment : Option Expr) (body : Stmt) : Stmt :=
  let loop_body :=
    Stmt.Block (body :: (increment.map (fun u => Stmt.Expression u)).toList)
  let w := Stmt.While
    (condition.getD (Expr.Literal ⟨.True, "true", 0⟩)) loop_body
  match initializer with
  | some i => Stmt.Block [i, w]
  | none => w

/-- The desugared statement as amended: identical to the claim's form
except that when the increment is absent, the while's body is the
original body itself, not wrapped in a block. -/
def spec_for_desugar_amended (initializer : Option Stmt)
    (condition : Option Expr) (increment : Option Expr) (body : Stmt) :
    Stmt :=
  let loop_body :=
    match increment with
    | some u => Stmt.Block [body, Stmt.Expression u]
    | none => body
  let w := Stmt.While
    (condition.getD (Expr.Literal ⟨.True, "true", 0⟩)) loop_body
  match initializer with
  | some i => Stmt.Block [i, w]
  | none => w

/-- Token shorthands for the concrete `for` programs. -/
def tEq : Token := ⟨.Equal, "=", 1⟩

def tSemi : Token := ⟨.SemiColon, ";", 1⟩

def tLP : Token := ⟨.LeftParen, "(", 1⟩

def tEofTok : Token := ⟨.Eof, "", 1⟩

/-- Tokens of the initializer statement `y;`. -/
def for_init_toks : List Token := [identTok "y", tSemi]

/-- Tokens of the condition `y`. -/
def for_cond_toks : List Token := [identTok "y"]

/-- Tokens of the increment `y`. -/
def for_inc_toks : List Token := [identTok "y"]

/-- Tokens of the body `y;`. -/
def for_body_toks : List Token := [identTok "y", tSemi]

/-- `for (y; y; y) y;`. -/
def for_toks_all : List Token :=
  [⟨.For, "for", 1⟩, tLP] ++ for_init_toks ++ for_cond_toks ++ [tSemi]
    ++ for_inc_toks ++ [rpTok] ++ for_body_toks ++ [tEofTok]

/-- `for (y; ; y) y;` (no condition). -/
def for_toks_no_cond : List Token :=
  [⟨.For, "for", 1⟩, tLP] ++ for_init_toks ++ [tSemi]
    ++ for_inc_toks ++ [rpTok] ++ for_body_toks ++ [tEofTok]

/-- `for (; y; y) y;` (no initializer). -/
def for_toks_no_init : List Token :=
  [⟨.For, "for", 1⟩, tLP, tSemi] ++ for_cond_toks ++ [tSemi]
    ++ for_inc_toks ++ [rpTok] ++ for_body_toks ++ [tEofTok]

/-- `for (y; y; ) y;` (no increment). -/
def for_toks_no_inc : List Token :=
  [⟨.For, "for", 1⟩, tLP] ++ for_init_toks ++ for_cond_toks ++ [tSemi]
    ++ [rpTok] ++ for_body_toks ++ [tEofTok]

/-- The parsed initializer `y;`. -/
def for_init_stmt : Stmt := .Expression (.Variable (identTok "y"))

/-- The parsed condition `y`. -/
def for_cond_expr : Expr := .Variable (identTok "y")

/-- The parsed increment `y`. -/
def for_inc_expr : Expr := .Variable (identTok "y")

/-- The parsed body `y;`. -/
def for_body_stmt : Stmt := .Expression (.Variable (identTok "y"))

/-- C9 (counterexample): parsing `for (y; y; ) y;` — an increment-less
`for` — produces a while statement whose body is the original body
directly, whereas the claim's desugaring places the body inside a block;
the two trees differ. -/
theorem for_desugar_counterexample :
    Parser.parse 30 (Parser.new for_toks_no_inc ErrorReporter.new)
      = some ([.Block [for_init_stmt,
                .While for_cond_expr for_body_stmt]], ErrorReporter.new)
    ∧ Stmt.Block [for_init_stmt, .While for_cond_expr for_body_stmt]
        ≠ spec_for_desugar (some for_init_stmt) (some for_cond_expr)
            none for_body_stmt := by
  refine ⟨by rfl, ?_⟩
  simp [spec_for_desugar, for_body_stmt]

set_option maxHeartbeats 2000000 in
/-- C9 (amended): `for (I; C; U) B` is desugared at parse time into
`{ I; while (C) { B; U; } }`, where a literal `true` stands in for an
absent `C`, the outer block is omitted for an absent `I`, and for an
absent `U` the while's body is the original body directly (no wrapping
block).  The construction of `Parser::for_statement` coincides with this
desugaring for every combination of present and absent parts, and the
four concrete programs covering each omission parse to exactly the
desugared forms. -/
theorem for_desugars_to_while :
    (∀ (i : Option Stmt) (c u : Option Expr) (b : Stmt),
        Parser.build_for_loop i c u b = spec_for_desugar_amended i c u b)
    ∧ Parser.parse 30 (Parser.new for_toks_all ErrorReporter.new)
        = some ([spec_for_desugar_amended (some for_init_stmt)
            (some for_cond_expr) (some for_inc_expr) for_body_stmt],
            ErrorReporter.new)
    ∧ Parser.parse 30 (Parser.new for_toks_no_cond ErrorReporter.new)
        = some ([spec_for_desugar_amended (some for_init_stmt) none
            (some for_inc_expr) for_body_stmt], ErrorReporter.new)
    ∧ Parser.parse 30 (Parser.new for_toks_no_init ErrorReporter.new)
        = some ([spec_for_desugar_amended none (some for_cond_expr)
            (some for_inc_expr) for_body_stmt], ErrorReporter.new)
    ∧ Parser.parse 30 (Parser.new for_toks_no_inc ErrorReporter.new)
        = some ([spec_for_desugar_amended (some for_init_stmt)
            (some for_cond_expr) none for_body_stmt], ErrorReporter.new) := by
  refine ⟨fun i c u b => ?_, by rfl, by rfl, by rfl, by rfl⟩
  cases i <;> cases c <;> cases u <;> rfl

def tComma : Token := ⟨.Comma, ",", 1⟩
def tLB : Token := ⟨.LeftBrace, "\x7b", 1⟩
def tRB : Token := ⟨.RightBrace, "\x7d", 1⟩
def pTok : Token := identTok "p"
def aTok : Token := identTok "a"
def fTok : Token := identTok "f"

def comma_param_run : Nat → List Token
  | 0 => []
  | k + 1 => tComma :: pTok :: comma_param_run k

def too_many_param_reports : Nat → Nat → Nat
  | _, 0 => 0
  | m, k + 1 =>
      (if 255 ≤ m + 1 then 1 else 0) + too_many_param_reports (m + 1) k

def reporter_after (r : ErrorReporter) (msg : String) (c : Nat) :
    ErrorReporter :=
  ⟨r.had_error || decide (0 < c), r.log ++ List.replicate c msg⟩

theorem too_many_param_reports_closed (m k : Nat) :
    too_many_param_reports m k = m + k - max m 254 := by
  induction k generalizing m with
  | zero =>
      simp only [too_many_param_reports]
      omega
  | succ k ih =>
      rw [show too_many_param_reports m (k + 1)
            = (if 255 ≤ m + 1 then 1 else 0)
              + too_many_param_reports (m + 1) k from rfl, ih (m + 1)]
      split <;> omega

theorem reporter_after_error (r : ErrorReporter) (msg : String) (c : Nat) :
    reporter_after (r.error msg) msg c = reporter_after r msg (c + 1) := by
  simp [reporter_after, ErrorReporter.error, List.replicate_succ]

theorem function_params_loop_run (k : Nat) :
    ∀ (fuel : Nat) (p : Parser) (lp : Token) (params : List Token)
      (t : Token) (rest : List Token),
      p.tokens.drop p.current = comma_param_run k ++ t :: rest →
      t.token_type ≠ .Comma → t.token_type ≠ .Eof →
      k + 1 ≤ fuel →
      Parser.function_params_loop fuel p lp params
        = some ({ p with
                  current := p.current + 2 * k,
                  error_reporter := reporter_after p.error_reporter
                    ((ParseError.TooManyFunctionArguments ⟨lp⟩).display)
                    (too_many_param_reports params.length k) },
                .ok (params ++ List.replicate k pTok)) := by
  induction k with
  | zero =>
      intro fuel p lp params t rest hdrop ht hte hfuel
      obtain ⟨f, rfl⟩ : ∃ f, fuel = f + 1 := ⟨fuel - 1, by omega⟩
      simp only [comma_param_run, List.nil_append] at hdrop
      unfold Parser.function_params_loop
      rw [Parser.advance_on_miss hdrop hte ht]
      simp [reporter_after, too_many_param_reports]
  | succ k ih =>
      intro fuel p lp params t rest hdrop ht hte hfuel
      obtain ⟨f, rfl⟩ : ∃ f, fuel = f + 1 := ⟨fuel - 1, by omega⟩
      simp only [comma_param_run, List.cons_append] at hdrop
      unfold Parser.function_params_loop
      rw [Parser.advance_on_match hdrop (by decide)
        (show tComma.token_type = TokenType.Comma from rfl)]
      simp only []
      have hdrop1 : ({ p with current := p.current + 1 } : Parser).tokens.drop
          (p.current + 1) = pTok :: (comma_param_run k ++ t :: rest) :=
        Parser.drop_succ_of_drop hdrop
      rw [Parser.advance_on_or_err_match hdrop1 (by decide)
        (show pTok.token_type = TokenType.Identifier from rfl)]
      simp only []
      simp only [List.length_append, List.length_cons, List.length_nil,
        Nat.add_zero, ge_iff_le]
      by_cases hge : 255 ≤ params.length + 1
      · rw [if_pos hge]
        have hdropR : (({ p with current := p.current + 1 + 1 } : Parser).report
              (.TooManyFunctionArguments ⟨lp⟩)).tokens.drop
            (p.current + 1 + 1) = comma_param_run k ++ t :: rest :=
          @Parser.drop_succ_of_drop { p with current := p.current + 1 }
            pTok (comma_param_run k ++ t :: rest) hdrop1
        have hfk : k + 1 ≤ f := by omega
        rw [ih f _ lp (params ++ [pTok]) t rest hdropR ht hte hfk]
        simp only [Parser.report]
        rw [reporter_after_error]
        simp only [List.length_append, List.length_cons, List.length_nil,
          Nat.add_zero]
        have hc : too_many_param_reports (params.length + 1) k + 1
            = too_many_param_reports params.length (k + 1) := by
          rw [too_many_param_reports_closed, too_many_param_reports_closed]
          omega
        rw [hc]
        simp only [Option.some.injEq, Prod.mk.injEq, Parser.mk.injEq,
          Except.ok.injEq, List.replicate_succ, List.append_assoc,
          List.cons_append, List.singleton_append, and_true, true_and,
          List.nil_append, eq_self_iff_true, and_true]
        omega
      · rw [if_neg hge]
        have hdrop2 : ({ p with current := p.current + 1 + 1 } : Parser).tokens.drop
            (p.current + 1 + 1) = comma_param_run k ++ t :: rest :=
          @Parser.drop_succ_of_drop { p with current := p.current + 1 }
            pTok (comma_param_run k ++ t :: rest) hdrop1
        have hfk : k + 1 ≤ f := by omega
        rw [ih f _ lp (params ++ [pTok]) t rest hdrop2 ht hte hfk]
        simp only [List.length_append, List.length_cons, List.length_nil,
          Nat.add_zero]
        have hc : too_many_param_reports (params.length + 1) k
            = too_many_param_reports params.length (k + 1) := by
          rw [too_many_param_reports_closed, too_many_param_reports_closed]
          omega
        rw [hc]
        simp only [Option.some.injEq, Prod.mk.injEq, Parser.mk.injEq,
          Except.ok.injEq, List.replicate_succ, List.append_assoc,
          List.cons_append, List.singleton_append, and_true, true_and,
          List.nil_append, eq_self_iff_true, and_true]
        omega

theorem comma_param_run_length (k : Nat) :
    (comma_param_run k).length = 2 * k := by
  induction k with
  | zero => rfl
  | succ k ih =>
      simp only [comma_param_run, List.length_cons, ih]
      omega

def fun_decl_rest_toks (n : Nat) : List Token :=
  [fTok, tLP, pTok] ++ comma_param_run (n - 1) ++ [rpTok, tLB, tRB, tEofTok]

theorem list_drop_of_drop_append {α : Type} {L l2 : List α} (l1 : List α)
    {i : Nat} (h : L.drop i = l1 ++ l2) :
    L.drop (i + l1.length) = l2 := by
  have h2 : (L.drop i).drop l1.length = l2 := by rw [h, List.drop_left]
  rw [List.drop_drop] at h2
  exact h2

theorem Parser.current_token_is_a_false_of_drop {p : Parser} {t : Token}
    {rest : List Token} (h : p.tokens.drop p.current = t :: rest)
    (ht : t.token_type ≠ .Eof) {tt : TokenType}
    (htt : t.token_type ≠ tt) :
    p.current_token_is_a tt = false := by
  rw [Parser.current_token_is_a_of_drop h ht]
  simp [htt]

theorem Parser.current_token_is_a_true_of_drop {p : Parser} {t : Token}
    {rest : List Token} (h : p.tokens.drop p.current = t :: rest)
    (ht : t.token_type ≠ .Eof) {tt : TokenType}
    (htt : t.token_type = tt) :
    p.current_token_is_a tt = true := by
  rw [Parser.current_token_is_a_of_drop h ht]
  simp [htt]

theorem Parser.block_statement_empty {p : Parser} {rest : List Token}
    (fuel : Nat) (h : p.tokens.drop p.current = tRB :: rest)
    (hf : 2 ≤ fuel) :
    Parser.block_statement fuel p
      = some ({ p with current := p.current + 1 }, .ok []) := by
  obtain ⟨f, rfl⟩ : ∃ f, fuel = f + 1 := ⟨fuel - 1, by omega⟩
  obtain ⟨g, rfl⟩ : ∃ g, f = g + 1 := ⟨f - 1, by omega⟩
  unfold Parser.block_statement
  simp only []
  unfold Parser.block_loop
  have h2 : ({ p with depth := p.depth + 1 } : Parser).tokens.drop
      ({ p with depth := p.depth + 1 } : Parser).current = tRB :: rest := h
  rw [Parser.is_at_end_of_drop h2 (by decide),
      Parser.current_token_is_a_true_of_drop h2 (by decide)
        (show tRB.token_type = TokenType.RightBrace from rfl)]
  simp only [Bool.not_false, Bool.not_true, Bool.and_false,
    Bool.false_eq_true, if_false]
  rw [Parser.advance_on_or_err_match h2 (by decide)
    (show tRB.token_type = TokenType.RightBrace from rfl)]
  simp only [Option.some.injEq, Prod.mk.injEq, Parser.mk.injEq,
    Nat.add_sub_cancel, and_true, true_and, eq_self_iff_true]

set_option maxHeartbeats 1000000 in
theorem function_declaration_run (n : Nat) (hn : 1 ≤ n) :
    Parser.function_declaration (n + 11)
        (Parser.new (fun_decl_rest_toks n) ErrorReporter.new)
      = some (⟨fun_decl_rest_toks n, 2 * n + 4,
               reporter_after ErrorReporter.new
                 ((ParseError.TooManyFunctionArguments ⟨tLP⟩).display)
                 (n - 254), 0⟩,
              .ok (fTok, pTok :: List.replicate (n - 1) pTok, [])) := by
  obtain ⟨m, rfl⟩ : ∃ m, n = m + 1 := ⟨n - 1, by omega⟩
  rw [show m + 1 + 11 = (m + 11) + 1 from by omega]
  unfold Parser.function_declaration
  simp only [Parser.new]
  have h0 : (⟨fun_decl_rest_toks (m + 1), 0, ErrorReporter.new, 0⟩ : Parser).tokens.drop
      (⟨fun_decl_rest_toks (m + 1), 0, ErrorReporter.new, 0⟩ : Parser).current
      = fTok :: ([tLP, pTok] ++ (comma_param_run m
          ++ [rpTok, tLB, tRB, tEofTok])) := rfl
  rw [Parser.advance_on_or_err_match h0 (by decide)
    (show fTok.token_type = TokenType.Identifier from rfl)]
  simp only [Nat.reduceAdd]
  have h1 : (⟨fun_decl_rest_toks (m + 1), 1, ErrorReporter.new, 0⟩ : Parser).tokens.drop
      (⟨fun_decl_rest_toks (m + 1), 1, ErrorReporter.new, 0⟩ : Parser).current
      = tLP :: ([pTok] ++ (comma_param_run m
          ++ [rpTok, tLB, tRB, tEofTok])) := rfl
  rw [Parser.advance_on_or_err_match h1 (by decide)
    (show tLP.token_type = TokenType.LeftParen from rfl)]
  simp only [Nat.reduceAdd]
  have h2 : (⟨fun_decl_rest_toks (m + 1), 2, ErrorReporter.new, 0⟩ : Parser).tokens.drop
      (⟨fun_decl_rest_toks (m + 1), 2, ErrorReporter.new, 0⟩ : Parser).current
      = pTok :: (comma_param_run m ++ [rpTok, tLB, tRB, tEofTok]) := rfl
  rw [Parser.current_token_is_a_false_of_drop h2 (by decide) (by decide)]
  rw [Parser.advance_on_or_err_match h2 (by decide)
    (show pTok.token_type = TokenType.Identifier from rfl)]
  simp only [Nat.reduceAdd, Bool.not_false, if_true]
  have h3 : (⟨fun_decl_rest_toks (m + 1), 3, ErrorReporter.new, 0⟩ : Parser).tokens.drop
      (⟨fun_decl_rest_toks (m + 1), 3, ErrorReporter.new, 0⟩ : Parser).current
      = comma_param_run m ++ rpTok :: [tLB, tRB, tEofTok] := rfl
  rw [function_params_loop_run m (m + 11) _ tLP [pTok] rpTok
    [tLB, tRB, tEofTok] h3 (by decide) (by decide) (by omega)]
  simp only [Nat.reduceAdd, List.singleton_append, List.length_cons,
    List.length_nil]
  have h3p : (fun_decl_rest_toks (m + 1)).drop 3
      = comma_param_run m ++ rpTok :: [tLB, tRB, tEofTok] := rfl
  have h4p : (fun_decl_rest_toks (m + 1)).drop (3 + 2 * m)
      = rpTok :: [tLB, tRB, tEofTok] := by
    have h := list_drop_of_drop_append (comma_param_run m) h3p
    rw [comma_param_run_length] at h
    exact h
  have h4 : (⟨fun_decl_rest_toks (m + 1), 3 + 2 * m,
        reporter_after ErrorReporter.new
          ((ParseError.TooManyFunctionArguments ⟨tLP⟩).display)
          (too_many_param_reports 1 m), 0⟩ : Parser).tokens.drop
      (3 + 2 * m) = rpTok :: [tLB, tRB, tEofTok] := h4p
  rw [Parser.advance_on_or_err_match h4 (by decide)
    (show rpTok.token_type = TokenType.RightParen from rfl)]
  simp only []
  have h5 : (⟨fun_decl_rest_toks (m + 1), 3 + 2 * m + 1,
        reporter_after ErrorReporter.new
          ((ParseError.TooManyFunctionArguments ⟨tLP⟩).display)
          (too_many_param_reports 1 m), 0⟩ : Parser).tokens.drop
      (3 + 2 * m + 1) = tLB :: [tRB, tEofTok] := by
    have h := @Parser.drop_succ_of_drop ⟨fun_decl_rest_toks (m + 1),
      3 + 2 * m, ErrorReporter.new, 0⟩ rpTok [tLB, tRB, tEofTok] h4p
    exact h
  rw [Parser.advance_on_or_err_match h5 (by decide)
    (show tLB.token_type = TokenType.LeftBrace from rfl)]
  simp only []
  have h6 : (⟨fun_decl_rest_toks (m + 1), 3 + 2 * m + 1 + 1,
        reporter_after ErrorReporter.new
          ((ParseError.TooManyFunctionArguments ⟨tLP⟩).display)
          (too_many_param_reports 1 m), 0⟩ : Parser).tokens.drop
      (3 + 2 * m + 1 + 1) = tRB :: [tEofTok] := by
    have ha := @Parser.drop_succ_of_drop ⟨fun_decl_rest_toks (m + 1),
      3 + 2 * m, ErrorReporter.new, 0⟩ rpTok [tLB, tRB, tEofTok] h4p
    have hb := @Parser.drop_succ_of_drop ⟨fun_decl_rest_toks (m + 1),
      3 + 2 * m + 1, ErrorReporter.new, 0⟩ tLB [tRB, tEofTok] ha
    exact hb
  rw [Parser.block_statement_empty (m + 11) h6 (by omega)]
  have hcnt : too_many_param_reports 1 m = m + 1 - 254 := by
    rw [too_many_param_reports_closed]
    omega
  rw [hcnt]
  simp only [Option.some.injEq, Prod.mk.injEq, Parser.mk.injEq,
    Except.ok.injEq, Nat.add_sub_cancel, and_true, true_and,
    eq_self_iff_true]
  omega

theorem Parser.previous_token_after {p : Parser} {t : Token}
    {rest : List Token} (h : p.tokens.drop p.current = t :: rest) :
    ({ p with current := p.current + 1 } : Parser).previous_token = t := by
  unfold Parser.previous_token
  simp only [Nat.add_sub_cancel]
  rw [list_get?_eq_head?_drop, h]
  rfl

theorem Parser.advance_on_any_of_miss {p : Parser} {t : Token}
    {rest : List Token} (h : p.tokens.drop p.current = t :: rest)
    (ht : t.token_type ≠ .Eof) (tts : List TokenType)
    (hall : ∀ tt, tt ∈ tts → t.token_type ≠ tt) :
    p.advance_on_any_of tts = (p, false) := by
  induction tts with
  | nil => rfl
  | cons tt tts ih =>
      unfold Parser.advance_on_any_of
      rw [Parser.current_token_is_a_of_drop h ht]
      have hne : (t.token_type == tt) = false := by
        simpa using hall tt (List.mem_cons_self tt tts)
      rw [hne]
      simp only [Bool.false_eq_true, if_false]
      exact ih (fun x hx => hall x (List.mem_cons_of_mem tt hx))

theorem Parser.primary_ident {p : Parser} {t : Token}
    {rest : List Token} (fuel : Nat) (hf : 1 ≤ fuel)
    (h : p.tokens.drop p.current = t :: rest)
    (ht : t.token_type = .Identifier) :
    Parser.primary fuel p
      = some ({ p with current := p.current + 1 }, .ok (.Variable t)) := by
  obtain ⟨g, rfl⟩ : ∃ g, fuel = g + 1 := ⟨fuel - 1, by omega⟩
  have hte : t.token_type ≠ .Eof := by rw [ht]; decide
  unfold Parser.primary
  rw [Parser.advance_on_match h hte ht]
  simp only []
  rw [Parser.previous_token_after h]

theorem Parser.call_loop_done {p : Parser} {u : Token}
    {rest : List Token} (fuel : Nat) (hf : 1 ≤ fuel) (expr : Expr)
    (h : p.tokens.drop p.current = u :: rest)
    (hue : u.token_type ≠ .Eof) (hu : u.token_type ≠ .LeftParen) :
    Parser.call_loop fuel p expr = some (p, .ok expr) := by
  obtain ⟨g, rfl⟩ : ∃ g, fuel = g + 1 := ⟨fuel - 1, by omega⟩
  unfold Parser.call_loop
  rw [Parser.advance_on_miss h hue hu]

theorem Parser.call_ident {p : Parser} {t u : Token}
    {rest : List Token} (fuel : Nat) (hf : 2 ≤ fuel)
    (h : p.tokens.drop p.current = t :: u :: rest)
    (ht : t.token_type = .Identifier)
    (hu : u.token_type = .Comma ∨ u.token_type = .RightParen) :
    Parser.call fuel p
      = some ({ p with current := p.current + 1 }, .ok (.Variable t)) := by
  obtain ⟨g, rfl⟩ : ∃ g, fuel = g + 1 := ⟨fuel - 1, by omega⟩
  have hue : u.token_type ≠ .Eof := by rcases hu with hu | hu <;> rw [hu] <;> decide
  have h1 : ({ p with current := p.current + 1 } : Parser).tokens.drop
      (p.current + 1) = u :: rest := Parser.drop_succ_of_drop h
  unfold Parser.call
  rw [Parser.primary_ident g (by omega) h ht]
  simp only []
  exact Parser.call_loop_done g (by omega) _ h1 hue
    (by rcases hu with hu | hu <;> rw [hu] <;> decide)

theorem Parser.unary_ident {p : Parser} {t u : Token}
    {rest : List Token} (fuel : Nat) (hf : 3 ≤ fuel)
    (h : p.tokens.drop p.current = t :: u :: rest)
    (ht : t.token_type = .Identifier)
    (hu : u.token_type = .Comma ∨ u.token_type = .RightParen) :
    Parser.unary fuel p
      = some ({ p with current := p.current + 1 }, .ok (.Variable t)) := by
  obtain ⟨g, rfl⟩ : ∃ g, fuel = g + 1 := ⟨fuel - 1, by omega⟩
  have hte : t.token_type ≠ .Eof := by rw [ht]; decide
  unfold Parser.unary
  rw [Parser.advance_on_any_of_miss h hte [TokenType.Bang, TokenType.Minus]
    (by rw [ht]; decide)]
  simp only []
  exact Parser.call_ident g (by omega) h ht hu

theorem Parser.factor_loop_done {p : Parser} {u : Token}
    {rest : List Token} (fuel : Nat) (hf : 1 ≤ fuel) (expr : Expr)
    (h : p.tokens.drop p.current = u :: rest)
    (hue : u.token_type ≠ .Eof)
    (hu : ∀ tt, tt ∈ [TokenType.Slash, TokenType.Star] → u.token_type ≠ tt) :
    Parser.factor_loop fuel p expr = some (p, .ok expr) := by
  obtain ⟨g, rfl⟩ : ∃ g, fuel = g + 1 := ⟨fuel - 1, by omega⟩
  unfold Parser.factor_loop
  rw [Parser.advance_on_any_of_miss h hue _ hu]

theorem Parser.factor_ident {p : Parser} {t u : Token}
    {rest : List Token} (fuel : Nat) (hf : 4 ≤ fuel)
    (h : p.tokens.drop p.current = t :: u :: rest)
    (ht : t.token_type = .Identifier)
    (hu : u.token_type = .Comma ∨ u.token_type = .RightParen) :
    Parser.factor fuel p
      = some ({ p with current := p.current + 1 }, .ok (.Variable t)) := by
  obtain ⟨g, rfl⟩ : ∃ g, fuel = g + 1 := ⟨fuel - 1, by omega⟩
  have hue : u.token_type ≠ .Eof := by rcases hu with hu | hu <;> rw [hu] <;> decide
  have h1 : ({ p with current := p.current + 1 } : Parser).tokens.drop
      (p.current + 1) = u :: rest := Parser.drop_succ_of_drop h
  unfold Parser.factor
  rw [Parser.unary_ident g (by omega) h ht hu]
  simp only []
  exact Parser.factor_loop_done g (by omega) _ h1 hue
    (by rcases hu with hu | hu <;> rw [hu] <;> decide)

theorem Parser.term_loop_done {p : Parser} {u : Token}
    {rest : List Token} (fuel : Nat) (hf : 1 ≤ fuel) (expr : Expr)
    (h : p.tokens.drop p.current = u :: rest)
    (hue : u.token_type ≠ .Eof)
    (hu : ∀ tt, tt ∈ [TokenType.Plus, TokenType.Minus] → u.token_type ≠ tt) :
    Parser.term_loop fuel p expr = some (p, .ok expr) := by
  obtain ⟨g, rfl⟩ : ∃ g, fuel = g + 1 := ⟨fuel - 1, by omega⟩
  unfold Parser.term_loop
  rw [Parser.advance_on_any_of_miss h hue _ hu]

theorem Parser.term_ident {p : Parser} {t u : Token}
    {rest : List Token} (fuel : Nat) (hf : 5 ≤ fuel)
    (h : p.tokens.drop p.current = t :: u :: rest)
    (ht : t.token_type = .Identifier)
    (hu : u.token_type = .Comma ∨ u.token_type = .RightParen) :
    Parser.term fuel p
      = some ({ p with current := p.current + 1 }, .ok (.Variable t)) := by
  obtain ⟨g, rfl⟩ : ∃ g, fuel = g + 1 := ⟨fuel - 1, by omega⟩
  have hue : u.token_type ≠ .Eof := by rcases hu with hu | hu <;> rw [hu] <;> decide
  have h1 : ({ p with current := p.current + 1 } : Parser).tokens.drop
      (p.current + 1) = u :: rest := Parser.drop_succ_of_drop h
  unfold Parser.term
  rw [Parser.factor_ident g (by omega) h ht hu]
  simp only []
  exact Parser.term_loop_done g (by omega) _ h1 hue
    (by rcases hu with hu | hu <;> rw [hu] <;> decide)

theorem Parser.comparison_loop_done {p : Parser} {u : Token}
    {rest : List Token} (fuel : Nat) (hf : 1 ≤ fuel) (expr : Expr)
    (h : p.tokens.drop p.current = u :: rest)
    (hue : u.token_type ≠ .Eof)
    (hu : ∀ tt, tt ∈ [TokenType.GreaterEqual, TokenType.Greater,
        TokenType.LessEqual, TokenType.Less] → u.token_type ≠ tt) :
    Parser.comparison_loop fuel p expr = some (p, .ok expr) := by
  obtain ⟨g, rfl⟩ : ∃ g, fuel = g + 1 := ⟨fuel - 1, by omega⟩
  unfold Parser.comparison_loop
  rw [Parser.advance_on_any_of_miss h hue _ hu]

theorem Parser.comparison_ident {p : Parser} {t u : Token}
    {rest : List Token} (fuel : Nat) (hf : 6 ≤ fuel)
    (h : p.tokens.drop p.current = t :: u :: rest)
    (ht : t.token_type = .Identifier)
    (hu : u.token_type = .Comma ∨ u.token_type = .RightParen) :
    Parser.comparison fuel p
      = some ({ p with current := p.current + 1 }, .ok (.Variable t)) := by
  obtain ⟨g, rfl⟩ : ∃ g, fuel = g + 1 := ⟨fuel - 1, by omega⟩
  have hue : u.token_type ≠ .Eof := by rcases hu with hu | hu <;> rw [hu] <;> decide
  have h1 : ({ p with current := p.current + 1 } : Parser).tokens.drop
      (p.current + 1) = u :: rest := Parser.drop_succ_of_drop h
  unfold Parser.comparison
  rw [Parser.term_ident g (by omega) h ht hu]
  simp only []
  exact Parser.comparison_loop_done g (by omega) _ h1 hue
    (by rcases hu with hu | hu <;> rw [hu] <;> decide)

theorem Parser.equality_loop_done {p : Parser} {u : Token}
    {rest : List Token} (fuel : Nat) (hf : 1 ≤ fuel) (expr : Expr)
    (h : p.tokens.drop p.current = u :: rest)
    (hue : u.token_type ≠ .Eof)
    (hu : ∀ tt, tt ∈ [TokenType.BangEqual, TokenType.EqualEqual] →
        u.token_type ≠ tt) :
    Parser.equality_loop fuel p expr = some (p, .ok expr) := by
  obtain ⟨g, rfl⟩ : ∃ g, fuel = g + 1 := ⟨fuel - 1, by omega⟩
  unfold Parser.equality_loop
  rw [Parser.advance_on_any_of_miss h hue _ hu]

theorem Parser.equality_ident {p : Parser} {t u : Token}
    {rest : List Token} (fuel : Nat) (hf : 7 ≤ fuel)
    (h : p.tokens.drop p.current = t :: u :: rest)
    (ht : t.token_type = .Identifier)
    (hu : u.token_type = .Comma ∨ u.token_type = .RightParen) :
    Parser.equality fuel p
      = some ({ p with current := p.current + 1 }, .ok (.Variable t)) := by
  obtain ⟨g, rfl⟩ : ∃ g, fuel = g + 1 := ⟨fuel - 1, by omega⟩
  have hue : u.token_type ≠ .Eof := by rcases hu with hu | hu <;> rw [hu] <;> decide
  have h1 : ({ p with current := p.current + 1 } : Parser).tokens.drop
      (p.current + 1) = u :: rest := Parser.drop_succ_of_drop h
  unfold Parser.equality
  rw [Parser.comparison_ident g (by omega) h ht hu]
  simp only []
  exact Parser.equality_loop_done g (by omega) _ h1 hue
    (by rcases hu with hu | hu <;> rw [hu] <;> decide)

theorem Parser.and_loop_done {p : Parser} {u : Token}
    {rest : List Token} (fuel : Nat) (hf : 1 ≤ fuel) (expr : Expr)
    (h : p.tokens.drop p.current = u :: rest)
    (hue : u.token_type ≠ .Eof) (hu : u.token_type ≠ .And) :
    Parser.and_loop fuel p expr = some (p, .ok expr) := by
  obtain ⟨g, rfl⟩ : ∃ g, fuel = g + 1 := ⟨fuel - 1, by omega⟩
  unfold Parser.and_loop
  rw [Parser.advance_on_miss h hue hu]

theorem Parser.and_expr_ident {p : Parser} {t u : Token}
    {rest : List Token} (fuel : Nat) (hf : 8 ≤ fuel)
    (h : p.tokens.drop p.current = t :: u :: rest)
    (ht : t.token_type = .Identifier)
    (hu : u.token_type = .Comma ∨ u.token_type = .RightParen) :
    Parser.and_expr fuel p
      = some ({ p with current := p.current + 1 }, .ok (.Variable t)) := by
  obtain ⟨g, rfl⟩ : ∃ g, fuel = g + 1 := ⟨fuel - 1, by omega⟩
  have hue : u.token_type ≠ .Eof := by rcases hu with hu | hu <;> rw [hu] <;> decide
  have h1 : ({ p with current := p.current + 1 } : Parser).tokens.drop
      (p.current + 1) = u :: rest := Parser.drop_succ_of_drop h
  unfold Parser.and_expr
  rw [Parser.equality_ident g (by omega) h ht hu]
  simp only []
  exact Parser.and_loop_done g (by omega) _ h1 hue
    (by rcases hu with hu | hu <;> rw [hu] <;> decide)

theorem Parser.or_loop_done {p : Parser} {u : Token}
    {rest : List Token} (fuel : Nat) (hf : 1 ≤ fuel) (expr : Expr)
    (h : p.tokens.drop p.current = u :: rest)
    (hue : u.token_type ≠ .Eof) (hu : u.token_type ≠ .Or) :
    Parser.or_loop fuel p expr = some (p, .ok expr) := by
  obtain ⟨g, rfl⟩ : ∃ g, fuel = g + 1 := ⟨fuel - 1, by omega⟩
  unfold Parser.or_loop
  rw [Parser.advance_on_miss h hue hu]

theorem Parser.or_expr_ident {p : Parser} {t u : Token}
    {rest : List Token} (fuel : Nat) (hf : 9 ≤ fuel)
    (h : p.tokens.drop p.current = t :: u :: rest)
    (ht : t.token_type = .Identifier)
    (hu : u.token_type = .Comma ∨ u.token_type = .RightParen) :
    Parser.or_expr fuel p
      = some ({ p with current := p.current + 1 }, .ok (.Variable t)) := by
  obtain ⟨g, rfl⟩ : ∃ g, fuel = g + 1 := ⟨fuel - 1, by omega⟩
  have hue : u.token_type ≠ .Eof := by rcases hu with hu | hu <;> rw [hu] <;> decide
  have h1 : ({ p with current := p.current + 1 } : Parser).tokens.drop
      (p.current + 1) = u :: rest := Parser.drop_succ_of_drop h
  unfold Parser.or_expr
  rw [Parser.and_expr_ident g (by omega) h ht hu]
  simp only []
  exact Parser.or_loop_done g (by omega) _ h1 hue
    (by rcases hu with hu | hu <;> rw [hu] <;> decide)

theorem Parser.assignment_ident {p : Parser} {t u : Token}
    {rest : List Token} (fuel : Nat) (hf : 10 ≤ fuel)
    (h : p.tokens.drop p.current = t :: u :: rest)
    (ht : t.token_type = .Identifier)
    (hu : u.token_type = .Comma ∨ u.token_type = .RightParen) :
    Parser.assignment fuel p
      = some ({ p with current := p.current + 1 }, .ok (.Variable t)) := by
  obtain ⟨g, rfl⟩ : ∃ g, fuel = g + 1 := ⟨fuel - 1, by omega⟩
  have hue : u.token_type ≠ .Eof := by rcases hu with hu | hu <;> rw [hu] <;> decide
  have h1 : ({ p with current := p.current + 1 } : Parser).tokens.drop
      (p.current + 1) = u :: rest := Parser.drop_succ_of_drop h
  unfold Parser.assignment
  rw [Parser.or_expr_ident g (by omega) h ht hu]
  simp only []
  rw [Parser.advance_on_miss h1 hue
    (by rcases hu with hu | hu <;> rw [hu] <;> decide)]

theorem Parser.expression_ident {p : Parser} {t u : Token}
    {rest : List Token} (fuel : Nat) (hf : 11 ≤ fuel)
    (h : p.tokens.drop p.current = t :: u :: rest)
    (ht : t.token_type = .Identifier)
    (hu : u.token_type = .Comma ∨ u.token_type = .RightParen) :
    Parser.expression fuel p
      = some ({ p with current := p.current + 1 }, .ok (.Variable t)) := by
  obtain ⟨g, rfl⟩ : ∃ g, fuel = g + 1 := ⟨fuel - 1, by omega⟩
  unfold Parser.expression
  exact Parser.assignment_ident g (by omega) h ht hu

def comma_arg_run : Nat → List Token
  | 0 => []
  | k + 1 => tComma :: aTok :: comma_arg_run k

theorem comma_arg_run_length (k : Nat) :
    (comma_arg_run k).length = 2 * k := by
  induction k with
  | zero => rfl
  | succ k ih =>
      simp only [comma_arg_run, List.length_cons, ih]
      omega

def too_many_arg_reports : Nat → Nat → Nat
  | _, 0 => 0
  | m, k + 1 =>
      (if 255 ≤ m then 1 else 0) + too_many_arg_reports (m + 1) k

theorem too_many_arg_reports_closed (m k : Nat) :
    too_many_arg_reports m k = m + k - max m 255 := by
  induction k generalizing m with
  | zero =>
      simp only [too_many_arg_reports]
      omega
  | succ k ih =>
      rw [show too_many_arg_reports m (k + 1)
            = (if 255 ≤ m then 1 else 0)
              + too_many_arg_reports (m + 1) k from rfl, ih (m + 1)]
      split <;> omega

theorem Parser.err_ctx_of_drop {p : Parser} {t : Token}
    {rest : List Token} (h : p.tokens.drop p.current = t :: rest) :
    p.err_ctx = ⟨t⟩ := by
  unfold Parser.err_ctx
  rw [Parser.current_token_of_drop h]

theorem comma_arg_next (k : Nat) (rest : List Token) :
    ∃ u rest2, comma_arg_run k ++ rpTok :: rest = u :: rest2
      ∧ (u.token_type = .Comma ∨ u.token_type = .RightParen) := by
  cases k with
  | zero => exact ⟨rpTok, rest, rfl, Or.inr rfl⟩
  | succ k =>
      exact ⟨tComma, aTok :: (comma_arg_run k ++ rpTok :: rest), rfl,
        Or.inl rfl⟩

theorem call_args_loop_run (k : Nat) :
    ∀ (fuel : Nat) (p : Parser) (args : List Expr) (rest : List Token),
      p.tokens.drop p.current = comma_arg_run k ++ rpTok :: rest →
      k + 13 ≤ fuel →
      Parser.call_args_loop fuel p args
        = some ({ p with
                  current := p.current + 2 * k,
                  error_reporter := reporter_after p.error_reporter
                    ((ParseError.TooManyFunctionArguments ⟨aTok⟩).display)
                    (too_many_arg_reports args.length k) },
                .ok (args ++ List.replicate k (Expr.Variable aTok))) := by
  induction k with
  | zero =>
      intro fuel p args rest hdrop hfuel
      obtain ⟨f, rfl⟩ : ∃ f, fuel = f + 1 := ⟨fuel - 1, by omega⟩
      simp only [comma_arg_run, List.nil_append] at hdrop
      unfold Parser.call_args_loop
      rw [Parser.advance_on_miss hdrop (by decide) (by decide)]
      simp [reporter_after, too_many_arg_reports]
  | succ k ih =>
      intro fuel p args rest hdrop hfuel
      obtain ⟨f, rfl⟩ : ∃ f, fuel = f + 1 := ⟨fuel - 1, by omega⟩
      simp only [comma_arg_run, List.cons_append] at hdrop
      unfold Parser.call_args_loop
      rw [Parser.advance_on_match hdrop (by decide)
        (show tComma.token_type = TokenType.Comma from rfl)]
      simp only []
      have hdrop1 : ({ p with current := p.current + 1 } : Parser).tokens.drop
          (p.current + 1) = aTok :: (comma_arg_run k ++ rpTok :: rest) :=
        Parser.drop_succ_of_drop hdrop
      rw [Parser.err_ctx_of_drop hdrop1]
      obtain ⟨u, rest2, heq, hu⟩ := comma_arg_next k rest
      have hdrop1u : ({ p with current := p.current + 1 } : Parser).tokens.drop
          (p.current + 1) = aTok :: u :: rest2 := by rw [hdrop1, heq]
      have hdrop2 : p.tokens.drop (p.current + 1 + 1)
          = comma_arg_run k ++ rpTok :: rest := by
        have h := @Parser.drop_succ_of_drop { p with current := p.current + 1 }
          aTok (comma_arg_run k ++ rpTok :: rest) hdrop1
        exact h
      simp only [ge_iff_le]
      by_cases hge : 255 ≤ args.length
      · rw [if_pos hge]
        have hdropR : ((({ p with current := p.current + 1 } : Parser).report
              (.TooManyFunctionArguments ⟨aTok⟩)) : Parser).tokens.drop
            (p.current + 1) = aTok :: u :: rest2 := hdrop1u
        rw [Parser.expression_ident f (by omega) hdropR rfl hu]
        simp only [Parser.report]
        have hdropR2 : (⟨p.tokens, p.current + 1 + 1,
              p.error_reporter.error
                ((ParseError.TooManyFunctionArguments ⟨aTok⟩).display),
              p.depth⟩ : Parser).tokens.drop (p.current + 1 + 1)
            = comma_arg_run k ++ rpTok :: rest := hdrop2
        have hfk : k + 13 ≤ f := by omega
        rw [ih f ⟨p.tokens, p.current + 1 + 1,
          p.error_reporter.error
            ((ParseError.TooManyFunctionArguments ⟨aTok⟩).display),
          p.depth⟩ (args ++ [Expr.Variable aTok]) rest hdropR2 hfk]
        rw [reporter_after_error]
        simp only [List.length_append, List.length_cons, List.length_nil,
          Nat.add_zero]
        have hc : too_many_arg_reports (args.length + 1) k + 1
            = too_many_arg_reports args.length (k + 1) := by
          rw [too_many_arg_reports_closed, too_many_arg_reports_closed]
          omega
        rw [hc]
        simp only [Option.some.injEq, Prod.mk.injEq, Parser.mk.injEq,
          Except.ok.injEq, List.replicate_succ, List.append_assoc,
          List.cons_append, List.singleton_append, and_true, true_and,
          List.nil_append, eq_self_iff_true, and_true]
        omega
      · rw [if_neg hge]
        rw [Parser.expression_ident f (by omega) hdrop1u rfl hu]
        simp only []
        have hdrop2' : ({ p with current := p.current + 1 + 1 } : Parser).tokens.drop
            (p.current + 1 + 1) = comma_arg_run k ++ rpTok :: rest := hdrop2
        have hfk : k + 13 ≤ f := by omega
        rw [ih f ⟨p.tokens, p.current + 1 + 1, p.error_reporter, p.depth⟩
          (args ++ [Expr.Variable aTok]) rest hdrop2' hfk]
        simp only [List.length_append, List.length_cons, List.length_nil,
          Nat.add_zero]
        have hc : too_many_arg_reports (args.length + 1) k
            = too_many_arg_reports args.length (k + 1) := by
          rw [too_many_arg_reports_closed, too_many_arg_reports_closed]
          omega
        rw [hc]
        simp only [Option.some.injEq, Prod.mk.injEq, Parser.mk.injEq,
          Except.ok.injEq, List.replicate_succ, List.append_assoc,
          List.cons_append, List.singleton_append, and_true, true_and,
          List.nil_append, eq_self_iff_true, and_true]
        omega

set_option maxHeartbeats 1000000 in
theorem finish_call_run (n : Nat) (hn : 1 ≤ n) (fuel : Nat)
    (hf : n + 13 ≤ fuel) (p : Parser) (callee : Expr) (rest : List Token)
    (hdrop : p.tokens.drop p.current
      = aTok :: (comma_arg_run (n - 1) ++ rpTok :: rest)) :
    Parser.finish_call fuel p callee
      = some ({ p with
                current := p.current + 2 * n,
                error_reporter := reporter_after p.error_reporter
                  ((ParseError.TooManyFunctionArguments ⟨aTok⟩).display)
                  (n - 255) },
              .ok (.Call callee rpTok
                (List.replicate n (Expr.Variable aTok)))) := by
  obtain ⟨m, rfl⟩ : ∃ m, n = m + 1 := ⟨n - 1, by omega⟩
  obtain ⟨f, rfl⟩ : ∃ f, fuel = f + 1 := ⟨fuel - 1, by omega⟩
  simp only [Nat.add_sub_cancel] at hdrop
  unfold Parser.finish_call
  rw [Parser.current_token_is_a_false_of_drop hdrop (by decide) (by decide)]
  simp only [Bool.not_false, if_true]
  obtain ⟨u, rest2, heq, hu⟩ := comma_arg_next m rest
  have hdropu : p.tokens.drop p.current = aTok :: u :: rest2 := by
    rw [hdrop, heq]
  rw [Parser.expression_ident f (by omega) hdropu rfl hu]
  simp only []
  have hdrop1 : (⟨p.tokens, p.current + 1, p.error_reporter,
        p.depth⟩ : Parser).tokens.drop (p.current + 1)
      = comma_arg_run m ++ rpTok :: rest :=
    Parser.drop_succ_of_drop hdrop
  rw [call_args_loop_run m f ⟨p.tokens, p.current + 1, p.error_reporter,
    p.depth⟩ [Expr.Variable aTok] rest hdrop1 (by omega)]
  simp only [List.length_cons, List.length_nil, Nat.zero_add]
  have hdrop2 : (⟨p.tokens, p.current + 1 + 2 * m,
        reporter_after p.error_reporter
          ((ParseError.TooManyFunctionArguments ⟨aTok⟩).display)
          (too_many_arg_reports 1 m), p.depth⟩ : Parser).tokens.drop
      (p.current + 1 + 2 * m) = rpTok :: rest := by
    have h := list_drop_of_drop_append (comma_arg_run m) hdrop1
    rw [comma_arg_run_length] at h
    exact h
  rw [Parser.advance_on_or_err_match hdrop2 (by decide)
    (show rpTok.token_type = TokenType.RightParen from rfl)]
  simp only []
  have hcnt : too_many_arg_reports 1 m = m + 1 - 255 := by
    rw [too_many_arg_reports_closed]
    omega
  rw [hcnt]
  simp only [Option.some.injEq, Prod.mk.injEq, Parser.mk.injEq,
    Except.ok.injEq, List.replicate_succ, List.singleton_append,
    and_true, true_and, eq_self_iff_true]
  omega

/-- C8 (amended): parsing a function declaration `fun f(p, p, …, p) { }`
with `n ≥ 1` parameters succeeds, produces the declaration with all `n`
parameters, leaves the parser positioned after the body, and appends
`n - 254` copies of the `TooManyFunctionArguments` report (at the opening
paren) to the reporter — so the parameter error first fires at exactly
255 parameters, not only beyond 255; and parsing a call argument list
`a, a, …, a)` with `n ≥ 1` arguments succeeds, produces the call with
all `n` arguments, and appends `n - 255` reports (at the argument token
after the offending comma) — the argument error first fires at 256
arguments. In both cases the error is non-fatal: the declaration or call
is still produced and the parser continues without synchronizing. -/
theorem too_many_arguments_threshold :
    (∀ n : Nat, 1 ≤ n →
      Parser.function_declaration (n + 11)
          (Parser.new (fun_decl_rest_toks n) ErrorReporter.new)
        = some (⟨fun_decl_rest_toks n, 2 * n + 4,
                 reporter_after ErrorReporter.new
                   ((ParseError.TooManyFunctionArguments ⟨tLP⟩).display)
                   (n - 254), 0⟩,
                .ok (fTok, pTok :: List.replicate (n - 1) pTok, [])))
    ∧ (∀ n : Nat, 1 ≤ n → ∀ fuel : Nat, n + 13 ≤ fuel →
        ∀ (p : Parser) (callee : Expr) (rest : List Token),
          p.tokens.drop p.current
            = aTok :: (comma_arg_run (n - 1) ++ rpTok :: rest) →
          Parser.finish_call fuel p callee
            = some ({ p with
                      current := p.current + 2 * n,
                      error_reporter := reporter_after p.error_reporter
                        ((ParseError.TooManyFunctionArguments ⟨aTok⟩).display)
                        (n - 255) },
                    .ok (.Call callee rpTok
                      (List.replicate n (Expr.Variable aTok))))) :=
  ⟨fun n hn => function_declaration_run n hn,
   fun n hn fuel hf p callee rest hdrop =>
     finish_call_run n hn fuel hf p callee rest hdrop⟩

/-- C8 witness: the amended theorem instantiated at one parameter and
one argument (no report in either case). -/
theorem too_many_arguments_threshold_witness :
    1 ≤ (1 : Nat) ∧
    Parser.function_declaration (1 + 11)
        (Parser.new (fun_decl_rest_toks 1) ErrorReporter.new)
      = some (⟨fun_decl_rest_toks 1, 2 * 1 + 4,
               reporter_after ErrorReporter.new
                 ((ParseError.TooManyFunctionArguments ⟨tLP⟩).display)
                 (1 - 254), 0⟩,
              .ok (fTok, pTok :: List.replicate (1 - 1) pTok, [])) ∧
    Parser.finish_call 14 ⟨[aTok, rpTok, tEofTok], 0, ErrorReporter.new, 0⟩
        (Expr.Variable fTok)
      = some (⟨[aTok, rpTok, tEofTok], 0 + 2 * 1,
               reporter_after ErrorReporter.new
                 ((ParseError.TooManyFunctionArguments ⟨aTok⟩).display)
                 (1 - 255), 0⟩,
              .ok (.Call (Expr.Variable fTok) rpTok
                (List.replicate 1 (Expr.Variable aTok)))) :=
  ⟨by decide,
   too_many_arguments_threshold.1 1 (by decide),
   too_many_arguments_threshold.2 1 (by decide) 14 (by decide)
     ⟨[aTok, rpTok, tEofTok], 0, ErrorReporter.new, 0⟩
     (Expr.Variable fTok) [tEofTok] rfl⟩

/-- C8 (counterexample to "exactly when the number exceeds 255"): a
declaration with exactly 255 parameters — which does not exceed 255 —
already sets the error flag and logs one `TooManyFunctionArguments`
report, while still producing the declaration. -/
theorem too_many_params_at_exactly_255 :
    Parser.function_declaration (255 + 11)
        (Parser.new (fun_decl_rest_toks 255) ErrorReporter.new)
      = some (⟨fun_decl_rest_toks 255, 2 * 255 + 4,
               ⟨true,
                [(ParseError.TooManyFunctionArguments ⟨tLP⟩).display]⟩, 0⟩,
              .ok (fTok, pTok :: List.replicate 254 pTok, []))
    ∧ ¬ 255 > 255 := by
  constructor
  · rw [function_declaration_run 255 (by omega)]
    rfl
  · omega

/-- Byte length of the source, as Rust's `String::len` counts it (UTF-8
bytes); the scanner compares its char-indexed cursor `current` against
this byte count. -/
def byteLen (source : List Char) : Nat :=
  (source.map Char.utf8Size).sum

/-- `is_digit` from `src/lib/util.rs`. -/
def is_digit (c : Char) : Bool := decide ('0' ≤ c) && decide (c ≤ '9')

/-- `is_alpha` from `src/lib/util.rs`. -/
def is_alpha (l : Char) : Bool :=
  (decide ('a' ≤ l) && decide (l ≤ 'z'))
    || (decide ('A' ≤ l) && decide (l ≤ 'Z')) || l == '_'

/-- `is_alpha_numeric` from `src/lib/util.rs`. -/
def is_alpha_numeric (c : Char) : Bool := is_alpha c || is_digit c

/-- `strip_quotes` from `src/lib/util.rs`: skip one char, then take
`s.len() - 2` chars (`len` being the byte count). -/
def strip_quotes (s : String) : String :=
  ⟨(s.data.drop 1).take (byteLen s.data - 2)⟩

/-- Decimal value of a scanned number lexeme (digits, optionally a point
and more digits), standing in for Rust's `str::parse::<f64>` on the
lexemes the scanner builds. -/
def parse_number (s : String) : ℚ :=
  let intPart := s.data.takeWhile (fun c => !(c == '.'))
  let fracPart := (s.data.dropWhile (fun c => !(c == '.'))).drop 1
  let ip : Nat :=
    intPart.foldl (fun acc c => 10 * acc + (c.toNat - '0'.toNat)) 0
  let fp : Nat :=
    fracPart.foldl (fun acc c => 10 * acc + (c.toNat - '0'.toNat)) 0
  mkRat (ip * 10 ^ fracPart.length + fp) (10 ^ fracPart.length)

/-- `Scanner` from `src/lib/scanner.rs`.  The `lox` error sink (whose
`error` method prints with `eprintln!` and sets `had_error`) is modelled
as an `ErrorReporter`; `source` is the char sequence of the source
string.  Rust panics (`expect` on a failed `chars().nth(..)`) are
modelled as `none` results. -/
structure Scanner where
  lox : ErrorReporter
  source : List Char
  tokens : List Token
  start : Nat
  current : Nat
  line : Nat

/-- `Scanner::new`. -/
def Scanner.new (source : List Char) (lox : ErrorReporter) : Scanner :=
  ⟨lox, source, [], 0, 0, 1⟩

/-- `Scanner::is_at_end`: `current >= source.len()` (bytes). -/
def Scanner.is_at_end (s : Scanner) : Bool :=
  decide (byteLen s.source ≤ s.current)

/-- `Scanner::peek_n_characters`: `'\0'` past the byte length, else the
char at index `current + n` (`none` models the `expect` panic when the
byte length exceeds the char count). -/
def Scanner.peek_n_characters (s : Scanner) (n : Nat) : Option Char :=
  if byteLen s.source ≤ s.current + n then some '\x00'
  else s.source.get? (s.current + n)

/-- `Scanner::current_char`. -/
def Scanner.current_char (s : Scanner) : Option Char :=
  s.peek_n_characters 0

/-- `Scanner::next_char`. -/
def Scanner.next_char (s : Scanner) : Option Char :=
  s.peek_n_characters 1

/-- `Scanner::advance`: step `current` and return the char just passed
(`none` models the `expect` panic). -/
def Scanner.advance (s : Scanner) : Option (Scanner × Char) :=
  let s := { s with current := s.current + 1 }
  match s.source.get? (s.current - 1) with
  | none => none
  | some c => some (s, c)

/-- `Scanner::advance_on`. -/
def Scanner.advance_on (s : Scanner) (expected : Char) :
    Option (Scanner × Bool) :=
  if s.is_at_end then some (s, false)
  else
    match s.current_char with
    | none => none
    | some c =>
        if c != expected then some (s, false)
        else
          match s.advance with
          | none => none
          | some (s, _) => some (s, true)

/-- `Scanner::get_current_lexeme`: chars from `start` (exclusive of
`current`). -/
def Scanner.get_current_lexeme (s : Scanner) : String :=
  ⟨(s.source.drop s.start).take (s.current - s.start)⟩

/-- `Scanner::add_token`. -/
def Scanner.add_token (s : Scanner) (token_type : TokenType) : Scanner :=
  { s with tokens :=
      s.tokens ++ [⟨token_type, s.get_current_lexeme, s.line⟩] }

/-- `Lox::error` as the scanner calls it: `static_error` with an empty
location prints `[line N] Error: msg` and sets `had_error`. -/
def Scanner.lox_error (s : Scanner) (msg : String) : Scanner :=
  { s with lox :=
      s.lox.error ("[line " ++ toString s.line ++ "] Error: " ++ msg) }

/-- The scanner's own `keywords()` map (`src/lib/scanner.rs`), which —
unlike `util::keywords` — also contains `print`. -/
def Scanner.keywords : List (String × TokenType) :=
  [("and", .And), ("class", .Class), ("else", .Else), ("false", .False),
   ("for", .For), ("fun", .Fun), ("if", .If), ("nil", .Nil), ("or", .Or),
   ("print", .Print), ("return", .Return), ("super", .Super),
   ("this", .This), ("true", .True), ("var", .Var), ("while", .While)]

/-- The comment-skipping loop of `Scanner::scan_token`'s `/` branch. -/
def Scanner.comment_loop (fuel : Nat) (s : Scanner) : Option Scanner :=
  match fuel with
  | 0 => none
  | fuel + 1 =>
      match s.current_char with
      | none => none
      | some c =>
          if c != '\n' && !s.is_at_end then
            match s.advance with
            | none => none
            | some (s, _) => Scanner.comment_loop fuel s
          else some s

/-- The scan-to-closing-quote loop of `Scanner::string`. -/
def Scanner.string_loop (fuel : Nat) (s : Scanner) : Option Scanner :=
  match fuel with
  | 0 => none
  | fuel + 1 =>
      match s.current_char with
      | none => none
      | some c =>
          if c != '"' && !s.is_at_end then
            let s := if c == '\n' then { s with line := s.line + 1 } else s
            match s.advance with
            | none => none
            | some (s, _) => Scanner.string_loop fuel s
          else some s

/-- `Scanner::string`: scan to the closing quote, then either report an
unterminated string or consume the quote and add the `String` token. -/
def Scanner.string (fuel : Nat) (s : Scanner) : Option Scanner :=
  match Scanner.string_loop fuel s with
  | none => none
  | some s =>
      if s.is_at_end then some (s.lox_error "Unterminated String")
      else
        match s.advance with
        | none => none
        | some (s, _) =>
            some (s.add_token (.String (strip_quotes s.get_current_lexeme)))

/-- The digit-consuming loops of `Scanner::number`. -/
def Scanner.digits_loop (fuel : Nat) (s : Scanner) : Option Scanner :=
  match fuel with
  | 0 => none
  | fuel + 1 =>
      match s.current_char with
      | none => none
      | some c =>
          if is_digit c then
            match s.advance with
            | none => none
            | some (s, _) => Scanner.digits_loop fuel s
          else some s

/-- `Scanner::number`: scan the digits, optionally a point followed by
more digits, and add the `Number` token. -/
def Scanner.number (fuel : Nat) (s : Scanner) : Option Scanner :=
  match Scanner.digits_loop fuel s with
  | none => none
  | some s =>
      match s.current_char with
      | none => none
      | some c =>
          if c == '.' then
            match s.next_char with
            | none => none
            | some n =>
                if is_digit n then
                  match s.advance with
                  | none => none
                  | some (s, _) =>
                      match Scanner.digits_loop fuel s with
                      | none => none
                      | some s =>
                          some (s.add_token
                            (.Number (parse_number s.get_current_lexeme)))
                else
                  some (s.add_token
                    (.Number (parse_number s.get_current_lexeme)))
          else
            some (s.add_token
              (.Number (parse_number s.get_current_lexeme)))

/-- The trailing-chars loop of `Scanner::identifier_or_keyword`. -/
def Scanner.identifier_loop (fuel : Nat) (s : Scanner) : Option Scanner :=
  match fuel with
  | 0 => none
  | fuel + 1 =>
      match s.current_char with
      | none => none
      | some c =>
          if is_alpha_numeric c then
            match s.advance with
            | none => none
            | some (s, _) => Scanner.identifier_loop fuel s
          else some s

/-- `Scanner::identifier_or_keyword`: consume the rest of the word, then
add the keyword token from the map, or an `Identifier`. -/
def Scanner.identifier_or_keyword (fuel : Nat) (s : Scanner) :
    Option Scanner :=
  match Scanner.identifier_loop fuel s with
  | none => none
  | some s =>
      match Scanner.keywords.lookup s.get_current_lexeme with
      | some keyword_token => some (s.add_token keyword_token)
      | none => some (s.add_token .Identifier)

/-- `Scanner::scan_token`: dispatch on the char just consumed. -/
def Scanner.scan_token (fuel : Nat) (s : Scanner) : Option Scanner :=
  match s.advance with
  | none => none
  | some (s, next_char) =>
      if next_char == '(' then some (s.add_token .LeftParen)
      else if next_char == ')' then some (s.add_token .RightParen)
      else if next_char == '\x7b' then some (s.add_token .LeftBrace)
      else if next_char == '\x7d' then some (s.add_token .RightBrace)
      else if next_char == ',' then some (s.add_token .Comma)
      else if next_char == '.' then some (s.add_token .Dot)
      else if next_char == '-' then some (s.add_token .Minus)
      else if next_char == '+' then some (s.add_token .Plus)
      else if next_char == ';' then some (s.add_token .SemiColon)
      else if next_char == '*' then some (s.add_token .Star)
      else if next_char == '!' then
        match s.advance_on '=' with
        | none => none
        | some (s, b) =>
            some (s.add_token (if b then .BangEqual else .Bang))
      else if next_char == '=' then
        match s.advance_on '=' with
        | none => none
        | some (s, b) =>
            some (s.add_token (if b then .EqualEqual else .Equal))
      else if next_char == '<' then
        match s.advance_on '=' with
        | none => none
        | some (s, b) =>
            some (s.add_token (if b then .LessEqual else .Less))
      else if next_char == '>' then
        match s.advance_on '=' with
        | none => none
        | some (s, b) =>
            some (s.add_token (if b then .GreaterEqual else .Greater))
      else if next_char == '/' then
        match s.advance_on '/' with
        | none => none
        | some (s, b) =>
            if b then Scanner.comment_loop fuel s
            else some (s.add_token .Slash)
      else if next_char == ' ' || next_char == '\r' || next_char == '\t' then
        some s
      else if next_char == '\n' then some { s with line := s.line + 1 }
      else if next_char == '"' then Scanner.string fuel s
      else if is_digit next_char then Scanner.number fuel s
      else if is_alpha next_char then Scanner.identifier_or_keyword fuel s
      else some (s.lox_error "Unexpected Character.")

/-- The statement loop of `Scanner::scan_tokens`: while not at the end,
reset `start` and scan one token. -/
def Scanner.scan_tokens_loop (fuel : Nat) (s : Scanner) : Option Scanner :=
  match fuel with
  | 0 => none
  | fuel + 1 =>
      if !s.is_at_end then
        match Scanner.scan_token fuel { s with start := s.current } with
        | none => none
        | some s => Scanner.scan_tokens_loop fuel s
      else some s

/-- `Scanner::scan_tokens` (`src/lib/scanner.rs` lines 153-164): run the
scanning loop, push the synthetic `Eof` token at the final line, and
return the token list together with the final scanner state. -/
def Scanner.scan_tokens (fuel : Nat) (s : Scanner) :
    Option (List Token × Scanner) :=
  match Scanner.scan_tokens_loop fuel s with
  | none => none
  | some s =>
      let s := { s with tokens := s.tokens ++ [⟨.Eof, "", s.line⟩] }
      some (s.tokens, s)

/-- No token of the list is an `Eof` token. -/
def no_eof (ts : List Token) : Prop :=
  ∀ t ∈ ts, t.token_type ≠ TokenType.Eof

theorem no_eof_nil : no_eof [] := by
  intro t ht
  cases ht

theorem no_eof_append {l1 l2 : List Token} (h1 : no_eof l1)
    (h2 : no_eof l2) : no_eof (l1 ++ l2) := by
  intro t ht
  rcases List.mem_append.mp ht with ht | ht
  · exact h1 t ht
  · exact h2 t ht

theorem no_eof_singleton {t : Token}
    (h : t.token_type ≠ TokenType.Eof) : no_eof [t] := by
  intro x hx
  rw [List.mem_singleton.mp hx]
  exact h

/-- The scanner state `s'` carries the tokens of `s` plus some new
tokens, none of them `Eof`. -/
def scanner_tokens_extend (s s' : Scanner) : Prop :=
  ∃ new, s'.tokens = s.tokens ++ new ∧ no_eof new

theorem scanner_tokens_extend_of_eq {s s' : Scanner}
    (h : s'.tokens = s.tokens) : scanner_tokens_extend s s' :=
  ⟨[], by simp [h], no_eof_nil⟩

theorem scanner_tokens_extend_trans {s1 s2 s3 : Scanner}
    (h1 : scanner_tokens_extend s1 s2) (h2 : scanner_tokens_extend s2 s3) :
    scanner_tokens_extend s1 s3 := by
  obtain ⟨n1, e1, f1⟩ := h1
  obtain ⟨n2, e2, f2⟩ := h2
  exact ⟨n1 ++ n2, by rw [e2, e1, List.append_assoc], no_eof_append f1 f2⟩

theorem scanner_tokens_extend_add {s : Scanner} {tt : TokenType}
    (h : tt ≠ TokenType.Eof) : scanner_tokens_extend s (s.add_token tt) :=
  ⟨[⟨tt, s.get_current_lexeme, s.line⟩], rfl, no_eof_singleton h⟩

theorem Scanner.advance_tokens {s s' : Scanner} {c : Char}
    (h : s.advance = some (s', c)) : s'.tokens = s.tokens := by
  simp only [Scanner.advance] at h
  cases hg : s.source.get? (s.current + 1 - 1) with
  | none => rw [hg] at h; cases h
  | some d => rw [hg] at h; cases h; rfl

theorem Scanner.advance_on_tokens {s s' : Scanner} {e : Char} {b : Bool}
    (h : s.advance_on e = some (s', b)) : s'.tokens = s.tokens := by
  unfold Scanner.advance_on at h
  split at h
  · cases h; rfl
  · cases hc : s.current_char with
    | none => rw [hc] at h; cases h
    | some c =>
        rw [hc] at h
        simp only [] at h
        split at h
        · cases h; rfl
        · cases ha : s.advance with
          | none => rw [ha] at h; cases h
          | some sc =>
              obtain ⟨s2, d⟩ := sc
              rw [ha] at h
              simp only [] at h
              cases h
              exact Scanner.advance_tokens ha

theorem Scanner.comment_loop_tokens :
    ∀ (fuel : Nat) (s s' : Scanner),
      Scanner.comment_loop fuel s = some s' → s'.tokens = s.tokens := by
  intro fuel
  induction fuel with
  | zero => intro s s' h; cases h
  | succ fuel ih =>
      intro s s' h
      unfold Scanner.comment_loop at h
      cases hc : s.current_char with
      | none => rw [hc] at h; cases h
      | some c =>
          rw [hc] at h
          simp only [] at h
          split at h
          · cases ha : s.advance with
            | none => rw [ha] at h; cases h
            | some sc =>
                obtain ⟨s2, d⟩ := sc
                rw [ha] at h
                simp only [] at h
                rw [ih s2 s' h, Scanner.advance_tokens ha]
          · cases h; rfl

theorem Scanner.digits_loop_tokens :
    ∀ (fuel : Nat) (s s' : Scanner),
      Scanner.digits_loop fuel s = some s' → s'.tokens = s.tokens := by
  intro fuel
  induction fuel with
  | zero => intro s s' h; cases h
  | succ fuel ih =>
      intro s s' h
      unfold Scanner.digits_loop at h
      cases hc : s.current_char with
      | none => rw [hc] at h; cases h
      | some c =>
          rw [hc] at h
          simp only [] at h
          split at h
          · cases ha : s.advance with
            | none => rw [ha] at h; cases h
            | some sc =>
                obtain ⟨s2, d⟩ := sc
                rw [ha] at h
                simp only [] at h
                rw [ih s2 s' h, Scanner.advance_tokens ha]
          · cases h; rfl

theorem Scanner.identifier_loop_tokens :
    ∀ (fuel : Nat) (s s' : Scanner),
      Scanner.identifier_loop fuel s = some s' → s'.tokens = s.tokens := by
  intro fuel
  induction fuel with
  | zero => intro s s' h; cases h
  | succ fuel ih =>
      intro s s' h
      unfold Scanner.identifier_loop at h
      cases hc : s.current_char with
      | none => rw [hc] at h; cases h
      | some c =>
          rw [hc] at h
          simp only [] at h
          split at h
          · cases ha : s.advance with
            | none => rw [ha] at h; cases h
            | some sc =>
                obtain ⟨s2, d⟩ := sc
                rw [ha] at h
                simp only [] at h
                rw [ih s2 s' h, Scanner.advance_tokens ha]
          · cases h; rfl

theorem Scanner.string_loop_tokens :
    ∀ (fuel : Nat) (s s' : Scanner),
      Scanner.string_loop fuel s = some s' → s'.tokens = s.tokens := by
  intro fuel
  induction fuel with
  | zero => intro s s' h; cases h
  | succ fuel ih =>
      intro s s' h
      unfold Scanner.string_loop at h
      cases hc : s.current_char with
      | none => rw [hc] at h; cases h
      | some c =>
          rw [hc] at h
          simp only [] at h
          split at h
          · cases ha : (if c == '\n'
                then ({ s with line := s.line + 1 } : Scanner)
                else s).advance with
            | none => rw [ha] at h; cases h
            | some sc =>
                obtain ⟨s2, d⟩ := sc
                rw [ha] at h
                simp only [] at h
                have h3 : (if c == '\n'
                    then ({ s with line := s.line + 1 } : Scanner)
                    else s).tokens = s.tokens := by split <;> rfl
                rw [ih s2 s' h, Scanner.advance_tokens ha, h3]
          · cases h; rfl

theorem lookup_value_mem {α β : Type} [BEq α] :
    ∀ (l : List (α × β)) (k : α) (v : β), List.lookup k l = some v →
      ∃ p, p ∈ l ∧ p.2 = v := by
  intro l
  induction l with
  | nil => intro k v h; cases h
  | cons p l ih =>
      intro k v h
      obtain ⟨a, b⟩ := p
      rw [List.lookup] at h
      cases hbeq : (k == a) with
      | true =>
          rw [hbeq] at h
          simp only [] at h
          injection h with hbv
          exact ⟨(a, b), List.mem_cons_self _ _, hbv⟩
      | false =>
          rw [hbeq] at h
          simp only [] at h
          obtain ⟨q, hq, hv⟩ := ih k v h
          exact ⟨q, List.mem_cons_of_mem _ hq, hv⟩

theorem keywords_value_not_eof {k : String} {v : TokenType}
    (h : List.lookup k Scanner.keywords = some v) :
    v ≠ TokenType.Eof := by
  obtain ⟨p, hp, hv⟩ := lookup_value_mem Scanner.keywords k v h
  rw [← hv]
  have hall : ∀ q ∈ Scanner.keywords, q.2 ≠ TokenType.Eof := by decide
  exact hall p hp

theorem Scanner.string_extend {fuel : Nat} {s s' : Scanner}
    (h : Scanner.string fuel s = some s') : scanner_tokens_extend s s' := by
  unfold Scanner.string at h
  cases hl : Scanner.string_loop fuel s with
  | none => rw [hl] at h; cases h
  | some s1 =>
      rw [hl] at h
      simp only [] at h
      have ht1 : s1.tokens = s.tokens := Scanner.string_loop_tokens fuel s s1 hl
      split at h
      · cases h
        exact scanner_tokens_extend_of_eq ht1
      · cases ha : s1.advance with
        | none => rw [ha] at h; cases h
        | some sc =>
            obtain ⟨s2, d⟩ := sc
            rw [ha] at h
            simp only [] at h
            cases h
            refine scanner_tokens_extend_trans
              (scanner_tokens_extend_of_eq
                (by rw [Scanner.advance_tokens ha, ht1]))
              (scanner_tokens_extend_add (by simp))

theorem Scanner.number_extend {fuel : Nat} {s s' : Scanner}
    (h : Scanner.number fuel s = some s') : scanner_tokens_extend s s' := by
  unfold Scanner.number at h
  cases hl : Scanner.digits_loop fuel s with
  | none => rw [hl] at h; cases h
  | some s1 =>
      rw [hl] at h
      simp only [] at h
      have ht1 : s1.tokens = s.tokens := Scanner.digits_loop_tokens fuel s s1 hl
      cases hc : s1.current_char with
      | none => rw [hc] at h; cases h
      | some c =>
          rw [hc] at h
          simp only [] at h
          split at h
          · cases hn : s1.next_char with
            | none => rw [hn] at h; cases h
            | some n =>
                rw [hn] at h
                simp only [] at h
                split at h
                · cases ha : s1.advance with
                  | none => rw [ha] at h; cases h
                  | some sc =>
                      obtain ⟨s2, d⟩ := sc
                      rw [ha] at h
                      simp only [] at h
                      cases hl2 : Scanner.digits_loop fuel s2 with
                      | none => rw [hl2] at h; cases h
                      | some s3 =>
                          rw [hl2] at h
                          simp only [] at h
                          cases h
                          refine scanner_tokens_extend_trans
                            (scanner_tokens_extend_of_eq ?_)
                            (scanner_tokens_extend_add (by simp))
                          rw [Scanner.digits_loop_tokens fuel s2 s3 hl2,
                            Scanner.advance_tokens ha, ht1]
                · cases h
                  exact scanner_tokens_extend_trans
                    (scanner_tokens_extend_of_eq ht1)
                    (scanner_tokens_extend_add (by simp))
          · cases h
            exact scanner_tokens_extend_trans
              (scanner_tokens_extend_of_eq ht1)
              (scanner_tokens_extend_add (by simp))

theorem Scanner.identifier_or_keyword_extend {fuel : Nat} {s s' : Scanner}
    (h : Scanner.identifier_or_keyword fuel s = some s') :
    scanner_tokens_extend s s' := by
  unfold Scanner.identifier_or_keyword at h
  cases hl : Scanner.identifier_loop fuel s with
  | none => rw [hl] at h; cases h
  | some s1 =>
      rw [hl] at h
      simp only [] at h
      have ht1 : s1.tokens = s.tokens :=
        Scanner.identifier_loop_tokens fuel s s1 hl
      cases hk : List.lookup s1.get_current_lexeme Scanner.keywords with
      | none =>
          rw [hk] at h
          simp only [] at h
          cases h
          exact scanner_tokens_extend_trans
            (scanner_tokens_extend_of_eq ht1)
            (scanner_tokens_extend_add (by simp))
      | some kw =>
          rw [hk] at h
          simp only [] at h
          cases h
          exact scanner_tokens_extend_trans
            (scanner_tokens_extend_of_eq ht1)
            (scanner_tokens_extend_add (keywords_value_not_eof hk))


set_option maxHeartbeats 2000000 in
theorem Scanner.scan_token_extend {fuel : Nat} {s s' : Scanner}
    (h : Scanner.scan_token fuel s = some s') :
    scanner_tokens_extend s s' := by
  unfold Scanner.scan_token at h
  cases hadv : s.advance with
  | none => rw [hadv] at h; cases h
  | some sc =>
      obtain ⟨s1, c⟩ := sc
      rw [hadv] at h
      simp only [] at h
      have hbase : scanner_tokens_extend s s1 :=
        scanner_tokens_extend_of_eq (Scanner.advance_tokens hadv)
      by_cases hc1 : (c == '(') = true
      · rw [if_pos hc1] at h
        cases h
        exact scanner_tokens_extend_trans hbase
          (scanner_tokens_extend_add (by simp))
      · rw [if_neg hc1] at h
        by_cases hc2 : (c == ')') = true
        · rw [if_pos hc2] at h
          cases h
          exact scanner_tokens_extend_trans hbase
            (scanner_tokens_extend_add (by simp))
        · rw [if_neg hc2] at h
          by_cases hc3 : (c == '\x7b') = true
          · rw [if_pos hc3] at h
            cases h
            exact scanner_tokens_extend_trans hbase
              (scanner_tokens_extend_add (by simp))
          · rw [if_neg hc3] at h
            by_cases hc4 : (c == '\x7d') = true
            · rw [if_pos hc4] at h
              cases h
              exact scanner_tokens_extend_trans hbase
                (scanner_tokens_extend_add (by simp))
            · rw [if_neg hc4] at h
              by_cases hc5 : (c == ',') = true
              · rw [if_pos hc5] at h
                cases h
                exact scanner_tokens_extend_trans hbase
                  (scanner_tokens_extend_add (by simp))
              · rw [if_neg hc5] at h
                by_cases hc6 : (c == '.') = true
                · rw [if_pos hc6] at h
                  cases h
                  exact scanner_tokens_extend_trans hbase
                    (scanner_tokens_extend_add (by simp))
                · rw [if_neg hc6] at h
                  by_cases hc7 : (c == '-') = true
                  · rw [if_pos hc7] at h
                    cases h
                    exact scanner_tokens_extend_trans hbase
                      (scanner_tokens_extend_add (by simp))
                  · rw [if_neg hc7] at h
                    by_cases hc8 : (c == '+') = true
                    · rw [if_pos hc8] at h
                      cases h
                      exact scanner_tokens_extend_trans hbase
                        (scanner_tokens_extend_add (by simp))
                    · rw [if_neg hc8] at h
                      by_cases hc9 : (c == ';') = true
                      · rw [if_pos hc9] at h
                        cases h
                        exact scanner_tokens_extend_trans hbase
                          (scanner_tokens_extend_add (by simp))
                      · rw [if_neg hc9] at h
                        by_cases hc10 : (c == '*') = true
                        · rw [if_pos hc10] at h
                          cases h
                          exact scanner_tokens_extend_trans hbase
                            (scanner_tokens_extend_add (by simp))
                        · rw [if_neg hc10] at h
                          by_cases hc11 : (c == '!') = true
                          · rw [if_pos hc11] at h
                            cases haon : s1.advance_on '=' with
                            | none => rw [haon] at h; cases h
                            | some sb =>
                                obtain ⟨s2, b⟩ := sb
                                rw [haon] at h
                                simp only [] at h
                                cases h
                                exact scanner_tokens_extend_trans
                                  (scanner_tokens_extend_trans hbase
                                    (scanner_tokens_extend_of_eq (Scanner.advance_on_tokens haon)))
                                  (scanner_tokens_extend_add (by cases b <;> simp))
                          · rw [if_neg hc11] at h
                            by_cases hc12 : (c == '=') = true
                            · rw [if_pos hc12] at h
                              cases haon : s1.advance_on '=' with
                              | none => rw [haon] at h; cases h
                              | some sb =>
                                  obtain ⟨s2, b⟩ := sb
                                  rw [haon] at h
                                  simp only [] at h
                                  cases h
                                  exact scanner_tokens_extend_trans
                                    (scanner_tokens_extend_trans hbase
                                      (scanner_tokens_extend_of_eq (Scanner.advance_on_tokens haon)))
                                    (scanner_tokens_extend_add (by cases b <;> simp))
                            · rw [if_neg hc12] at h
                              by_cases hc13 : (c == '<') = true
                              · rw [if_pos hc13] at h
                                cases haon : s1.advance_on '=' with
                                | none => rw [haon] at h; cases h
                                | some sb =>
                                    obtain ⟨s2, b⟩ := sb
                                    rw [haon] at h
                                    simp only [] at h
                                    cases h
                                    exact scanner_tokens_extend_trans
                                      (scanner_tokens_extend_trans hbase
                                        (scanner_tokens_extend_of_eq (Scanner.advance_on_tokens haon)))
                                      (scanner_tokens_extend_add (by cases b <;> simp))
                              · rw [if_neg hc13] at h
                                by_cases hc14 : (c == '>') = true
                                · rw [if_pos hc14] at h
                                  cases haon : s1.advance_on '=' with
                                  | none => rw [haon] at h; cases h
                                  | some sb =>
                                      obtain ⟨s2, b⟩ := sb
                                      rw [haon] at h
                                      simp only [] at h
                                      cases h
                                      exact scanner_tokens_extend_trans
                                        (scanner_tokens_extend_trans hbase
                                          (scanner_tokens_extend_of_eq (Scanner.advance_on_tokens haon)))
                                        (scanner_tokens_extend_add (by cases b <;> simp))
                                · rw [if_neg hc14] at h
                                  by_cases hc15 : (c == '/') = true
                                  · rw [if_pos hc15] at h
                                    cases haon : s1.advance_on '/' with
                                    | none => rw [haon] at h; cases h
                                    | some sb =>
                                        obtain ⟨s2, b⟩ := sb
                                        rw [haon] at h
                                        simp only [] at h
                                        have hbase2 : scanner_tokens_extend s s2 :=
                                          scanner_tokens_extend_trans hbase
                                            (scanner_tokens_extend_of_eq (Scanner.advance_on_tokens haon))
                                        cases b with
                                        | true =>
                                            simp only [if_true] at h
                                            exact scanner_tokens_extend_trans hbase2
                                              (scanner_tokens_extend_of_eq
                                                (Scanner.comment_loop_tokens fuel s2 s' h))
                                        | false =>
                                            simp only [Bool.false_eq_true, if_false] at h
                                            cases h
                                            exact scanner_tokens_extend_trans hbase2
                                              (scanner_tokens_extend_add (by simp))
                                  · rw [if_neg hc15] at h
                                    by_cases hc16 : (c == ' ' || c == '\r' || c == '\t') = true
                                    · rw [if_pos hc16] at h
                                      cases h
                                      exact hbase
                                    · rw [if_neg hc16] at h
                                      by_cases hc17 : (c == '\n') = true
                                      · rw [if_pos hc17] at h
                                        cases h
                                        exact scanner_tokens_extend_trans hbase
                                          (scanner_tokens_extend_of_eq rfl)
                                      · rw [if_neg hc17] at h
                                        by_cases hc18 : (c == '"') = true
                                        · rw [if_pos hc18] at h
                                          exact scanner_tokens_extend_trans hbase (Scanner.string_extend h)
                                        · rw [if_neg hc18] at h
                                          by_cases hc19 : is_digit c = true
                                          · rw [if_pos hc19] at h
                                            exact scanner_tokens_extend_trans hbase (Scanner.number_extend h)
                                          · rw [if_neg hc19] at h
                                            by_cases hc20 : is_alpha c = true
                                            · rw [if_pos hc20] at h
                                              exact scanner_tokens_extend_trans hbase
                                                (Scanner.identifier_or_keyword_extend h)
                                            · rw [if_neg hc20] at h
                                              cases h
                                              exact scanner_tokens_extend_trans hbase
                                                (scanner_tokens_extend_of_eq rfl)

theorem Scanner.scan_tokens_loop_extend :
    ∀ (fuel : Nat) (s s' : Scanner),
      Scanner.scan_tokens_loop fuel s = some s' →
      scanner_tokens_extend s s' := by
  intro fuel
  induction fuel with
  | zero => intro s s' h; cases h
  | succ fuel ih =>
      intro s s' h
      unfold Scanner.scan_tokens_loop at h
      split at h
      · cases hst : Scanner.scan_token fuel { s with start := s.current } with
        | none => rw [hst] at h; cases h
        | some s2 =>
            rw [hst] at h
            simp only [] at h
            exact scanner_tokens_extend_trans
              (scanner_tokens_extend_trans
                (scanner_tokens_extend_of_eq
                  (rfl : ({ s with start := s.current } : Scanner).tokens
                    = s.tokens))
                (Scanner.scan_token_extend hst)) (ih s2 s' h)
      · cases h
        exact scanner_tokens_extend_of_eq rfl

/-- C10: every token list the scanner returns — whatever the source, the
fuel and the error sink — is an `Eof`-free prefix followed by exactly
one final `Eof` token, whose line is the final scanner state's line
count. -/
theorem scanner_single_trailing_eof (source : List Char)
    (r : ErrorReporter) (fuel : Nat) (out : List Token) (s' : Scanner)
    (h : Scanner.scan_tokens fuel (Scanner.new source r) = some (out, s')) :
    ∃ pre, out = pre ++ [⟨TokenType.Eof, "", s'.line⟩]
      ∧ ∀ t ∈ pre, t.token_type ≠ TokenType.Eof := by
  unfold Scanner.scan_tokens at h
  cases hl : Scanner.scan_tokens_loop fuel (Scanner.new source r) with
  | none => rw [hl] at h; cases h
  | some sl =>
      rw [hl] at h
      simp only [] at h
      obtain ⟨new, hnew, hno⟩ := Scanner.scan_tokens_loop_extend fuel _ sl hl
      cases h
      refine ⟨sl.tokens, rfl, ?_⟩
      intro t ht
      have hn : sl.tokens = new := by simpa using hnew
      rw [hn] at ht
      exact hno t ht

/-- C10 witness: the theorem instantiated on the two-char source `1;`,
which scans to a number, a semicolon and the final `Eof`. -/
theorem scanner_single_trailing_eof_witness :
    ∃ pre, [(⟨.Number 1, "1", 1⟩ : Token), ⟨.SemiColon, ";", 1⟩,
        ⟨.Eof, "", 1⟩] = pre ++ [⟨TokenType.Eof, "", 1⟩]
      ∧ ∀ t ∈ pre, t.token_type ≠ TokenType.Eof :=
  scanner_single_trailing_eof ['1', ';'] ErrorReporter.new 10
    [⟨.Number 1, "1", 1⟩, ⟨.SemiColon, ";", 1⟩, ⟨.Eof, "", 1⟩]
    ⟨ErrorReporter.new, ['1', ';'],
     [⟨.Number 1, "1", 1⟩, ⟨.SemiColon, ";", 1⟩, ⟨.Eof, "", 1⟩], 1, 2, 1⟩
    (by rfl)
